import Mathlib

/-!
# Verification of the iROILS Evaluations persistence and session layer

Shallow embedding of the data model and operations of the iROILS
Evaluations repository: the entry / evaluation / institution-stats
relational tables and the operations of `DatabaseService`
(`src/app/services/database_service.py`), the legacy `DatabaseManager`
(`src/database_manager.py`), `RedisManager` (`src/redis_manager.py`),
`InstitutionManager` (`src/institution_manager.py`), and the session
layer `AuthService` (`src/app/services/auth_service.py`) and
`LoginManager` (`src/login_manager.py`).

Python floats only ever hold integer-valued sums of small integer scores
here, and `time.time()` values are compared and subtracted exactly, so
floats are modelled by `ℚ` (exact arithmetic); `INTEGER` columns and
Python ints by `Int`; JSON string fields by `String`; a possibly absent
JSON key or session key by `Option`.
-/

/-- Python `s.strip()` restricted to the whitespace characters Lean knows:
drops leading and trailing whitespace. -/
def stripStr (s : String) : String :=
  ⟨((s.data.dropWhile Char.isWhitespace).reverse.dropWhile Char.isWhitespace).reverse⟩

/-- Python `s.lower()` / SQL `LOWER` on the ASCII range: maps each
character through `Char.toLower`. -/
def toLowerStr (s : String) : String :=
  ⟨s.data.map Char.toLower⟩

/-- `institution.strip().lower()` — the normalization every read-side query
applies to institution names (SQL `LOWER(TRIM(institution))`). -/
def cleanInst (s : String) : String :=
  toLowerStr (stripStr s)

/-- The JSON entry document (`data` column / Redis entry dict).  Only the
fields the verified operations inspect are modelled: `'Event Number'`,
the `'Selected'` flag (absent key = `none`), and the remaining free-form
fields collapsed into an opaque payload. -/
structure PyEntry where
  eventNumber : String
  selected : Option String
  payload : String
deriving DecidableEq, Repr

/-- A row of the `entries` table: `(institution, event_number, data)`. -/
structure EntryRow where
  institution : String
  event_number : String
  data : PyEntry
deriving DecidableEq, Repr

/-- A row of the `evaluations` table / the `Evaluation` dataclass
(`src/app/models/evaluation.py`):
`(institution, evaluator, entry_number, summary_score, tag_score, feedback)`. -/
structure EvalRow where
  institution : String
  evaluator : String
  entry_number : String
  summary_score : Int
  tag_score : Int
  feedback : String
deriving DecidableEq, Repr

/-- The `InstitutionStats` dataclass (`src/app/models/institution.py`),
also a row of the `institution_stats` table. -/
structure InstitutionStats where
  institution : String
  cumulative_summary : ℚ := 0
  cumulative_tag : ℚ := 0
  total_evaluations : Int := 0
deriving DecidableEq, Repr

/-- `InstitutionStats.average_summary`: `cumulative_summary / total_evaluations`
guarded by `total_evaluations > 0`, else `0.0`. -/
def InstitutionStats.average_summary (s : InstitutionStats) : ℚ :=
  if s.total_evaluations > 0 then s.cumulative_summary / (s.total_evaluations : ℚ)
  else 0

/-- `InstitutionStats.average_tag`: the same guarded division for the tag score. -/
def InstitutionStats.average_tag (s : InstitutionStats) : ℚ :=
  if s.total_evaluations > 0 then s.cumulative_tag / (s.total_evaluations : ℚ)
  else 0

/-- `InstitutionStats.add_evaluation`: add both scores to the running sums and
increment the evaluation count. -/
def InstitutionStats.add_evaluation (st : InstitutionStats)
    (summary_score tag_score : ℚ) : InstitutionStats :=
  { st with
    cumulative_summary := st.cumulative_summary + summary_score
    cumulative_tag := st.cumulative_tag + tag_score
    total_evaluations := st.total_evaluations + 1 }

/-- `InstitutionStats.update_evaluation`: add the score deltas to the running
sums; the evaluation count is not touched. -/
def InstitutionStats.update_evaluation (st : InstitutionStats)
    (old_summary new_summary old_tag new_tag : ℚ) : InstitutionStats :=
  { st with
    cumulative_summary := st.cumulative_summary + (new_summary - old_summary)
    cumulative_tag := st.cumulative_tag + (new_tag - old_tag) }

/-- `RedisManager.update_institution_stats` body (lines 86–111): given the
stats hash currently stored under `{institution}_stats` (or zeros when the
key is absent), subtract the old scores, add the new ones, and increment
the count exactly when `is_new_evaluation`. -/
def redisAdjustStats (existing : Option (ℚ × ℚ × Int))
    (summary_score tag_score : ℚ) (is_new_evaluation : Bool)
    (old_summary_score old_tag_score : ℚ) : ℚ × ℚ × Int :=
  let cumulative_summary := (existing.map (·.1)).getD 0
  let cumulative_tag := (existing.map (·.2.1)).getD 0
  let total_evaluations := (existing.map (·.2.2)).getD 0
  (cumulative_summary - old_summary_score + summary_score,
   cumulative_tag - old_tag_score + tag_score,
   if is_new_evaluation then total_evaluations + 1 else total_evaluations)

/-! ## Relational store: evaluations, stats, entries -/

/-- Raw uniqueness key of an evaluation row, as enforced by the
`unique_evaluation` constraint `UNIQUE (institution, evaluator, entry_number)`
(exact column equality). -/
def rawEvalKey (r : EvalRow) : String × String × String :=
  (r.institution, r.evaluator, r.entry_number)

/-- The `WHERE` clause of `DatabaseService.get_evaluation`:
`LOWER(TRIM(institution)) = institution.strip().lower() AND evaluator = … AND entry_number = …`. -/
def evalKeyMatch (r : EvalRow) (institution evaluator entry_number : String) : Bool :=
  cleanInst r.institution == cleanInst institution
    && r.evaluator == evaluator && r.entry_number == entry_number

/-- `DatabaseService.get_evaluation`: fetch the evaluation row for the given
`(institution, evaluator, entry_number)`, `none` when absent. -/
def get_evaluation (evals : List EvalRow)
    (institution evaluator entry_number : String) : Option EvalRow :=
  evals.find? (fun r => evalKeyMatch r institution evaluator entry_number)

/-- `INSERT … ON CONFLICT (institution, evaluator, entry_number) DO UPDATE SET
summary_score, tag_score, feedback`: update the row with the same raw key if
one exists, otherwise append the new row. -/
def upsertEval (evals : List EvalRow) (row : EvalRow) : List EvalRow :=
  if evals.any (fun r => rawEvalKey r == rawEvalKey row) then
    evals.map (fun r =>
      if rawEvalKey r == rawEvalKey row then
        { r with summary_score := row.summary_score, tag_score := row.tag_score,
                 feedback := row.feedback }
      else r)
  else evals ++ [row]

/-- `DatabaseService.save_evaluation`: check whether the evaluation is new
(via `get_evaluation`), upsert the row with `institution.lower()`, and return
the `is_new` flag alongside the new table state. -/
def save_evaluation (evals : List EvalRow) (e : EvalRow) : Bool × List EvalRow :=
  let is_new := (get_evaluation evals e.institution e.evaluator e.entry_number).isNone
  (is_new, upsertEval evals { e with institution := toLowerStr e.institution })

/-- `DatabaseService.get_institution_stats`: look the institution up by
`LOWER(TRIM(institution)) = institution.strip().lower()` and materialize an
`InstitutionStats` with the cleaned name, defaulting to zeros when no row
exists. -/
def get_institution_stats (stats : List InstitutionStats)
    (institution : String) : InstitutionStats :=
  match stats.find? (fun r => cleanInst r.institution == cleanInst institution) with
  | some r => { r with institution := cleanInst institution }
  | none => { institution := cleanInst institution }

/-- `DatabaseService.update_institution_stats`:
`INSERT … ON CONFLICT (institution) DO UPDATE SET` the three value columns,
inserting with `stats.institution.lower()`. -/
def update_institution_stats (stats : List InstitutionStats)
    (s : InstitutionStats) : List InstitutionStats :=
  if stats.any (fun r => r.institution == toLowerStr s.institution) then
    stats.map (fun r =>
      if r.institution == toLowerStr s.institution then
        { r with cumulative_summary := s.cumulative_summary,
                 cumulative_tag := s.cumulative_tag,
                 total_evaluations := s.total_evaluations }
      else r)
  else stats ++ [{ s with institution := toLowerStr s.institution }]

/-- `DatabaseService.add_evaluation_to_stats`: read the current stats for the
cleaned institution, apply `add_evaluation` when `is_new` and
`update_evaluation` otherwise, and write the result back. -/
def add_evaluation_to_stats (stats : List InstitutionStats) (institution : String)
    (summary_score tag_score : ℚ) (is_new : Bool)
    (old_summary old_tag : ℚ) : List InstitutionStats :=
  let st := get_institution_stats stats (cleanInst institution)
  let st' := if is_new then st.add_evaluation summary_score tag_score
             else st.update_evaluation old_summary summary_score old_tag tag_score
  update_institution_stats stats st'

/-- The three relational tables of the PostgreSQL schema. -/
structure DBState where
  entries : List EntryRow
  evaluations : List EvalRow
  stats : List InstitutionStats
deriving DecidableEq, Repr

/-- The empty database (freshly initialized schema). -/
def DBState.empty : DBState := ⟨[], [], []⟩

/-- The evaluation-submit flow of `SubmissionPage._render_evaluation_form`
(`src/app/pages/submission_page.py` lines 161–234): fetch the existing
evaluation, save the new one, then adjust the institution stats with
`is_new = (existing is None)` and the existing row's scores as old scores
(`0` when there was none). -/
def submitEvaluation (db : DBState) (e : EvalRow) : DBState :=
  let existing := get_evaluation db.evaluations e.institution e.evaluator e.entry_number
  let is_new := existing.isNone
  let old_summary : ℚ := match existing with | some r => (r.summary_score : ℚ) | none => 0
  let old_tag : ℚ := match existing with | some r => (r.tag_score : ℚ) | none => 0
  { db with
    evaluations := (save_evaluation db.evaluations e).2
    stats := add_evaluation_to_stats db.stats e.institution
      (e.summary_score : ℚ) (e.tag_score : ℚ) is_new old_summary old_tag }

/-- `DatabaseService.reset_institution_data`: delete the institution's rows
from all three tables (matching `LOWER(TRIM(institution)) = institution.strip().lower()`). -/
def reset_institution_data (db : DBState) (institution : String) : DBState :=
  let c := cleanInst institution
  { entries := db.entries.filter (fun r => !(cleanInst r.institution == c))
    evaluations := db.evaluations.filter (fun r => !(cleanInst r.institution == c))
    stats := db.stats.filter (fun r => !(cleanInst r.institution == c)) }

/-! ## Aggregates derived from the evaluations table -/

/-- That institution's evaluation rows: the rows whose institution matches
the query under the read-side normalization. -/
def evalsFor (evals : List EvalRow) (institution : String) : List EvalRow :=
  evals.filter (fun r => cleanInst r.institution == cleanInst institution)

/-- Sum of `summary_score` over an institution's evaluation rows. -/
def sumSummary (evals : List EvalRow) (institution : String) : ℚ :=
  ((evalsFor evals institution).map (fun r => (r.summary_score : ℚ))).sum

/-- Sum of `tag_score` over an institution's evaluation rows. -/
def sumTag (evals : List EvalRow) (institution : String) : ℚ :=
  ((evalsFor evals institution).map (fun r => (r.tag_score : ℚ))).sum

/-- Number of an institution's evaluation rows. -/
def countEvals (evals : List EvalRow) (institution : String) : Int :=
  ((evalsFor evals institution).length : Int)

/-- The C1 invariant at one institution: the stored stats agree with the
aggregates recomputed from the evaluation rows. -/
def statsInvariant (db : DBState) (institution : String) : Prop :=
  (get_institution_stats db.stats institution).cumulative_summary
      = sumSummary db.evaluations institution
    ∧ (get_institution_stats db.stats institution).cumulative_tag
      = sumTag db.evaluations institution
    ∧ (get_institution_stats db.stats institution).total_evaluations
      = countEvals db.evaluations institution

/-- States reachable from the empty database by evaluation writes (the full
submit flow) and institution resets, with no restriction on the institution
strings supplied. -/
inductive Reachable : DBState → Prop
  | init : Reachable DBState.empty
  | write (db : DBState) (e : EvalRow) : Reachable db → Reachable (submitEvaluation db e)
  | reset (db : DBState) (i : String) : Reachable db → Reachable (reset_institution_data db i)

/-- An institution string in the canonical form the write paths assume:
already lowercase and free of surrounding whitespace, so that the
write-side `institution.lower()` and the read-side
`institution.strip().lower()` coincide on it. -/
def canonicalInst (s : String) : Prop :=
  cleanInst s = s ∧ toLowerStr s = s

instance (s : String) : Decidable (canonicalInst s) := by
  unfold canonicalInst; infer_instance

/-- States reachable from the empty database when every evaluation write
supplies a canonical institution string. -/
inductive ReachableC : DBState → Prop
  | init : ReachableC DBState.empty
  | write (db : DBState) (e : EvalRow) : ReachableC db → canonicalInst e.institution →
      ReachableC (submitEvaluation db e)
  | reset (db : DBState) (i : String) : ReachableC db → ReachableC (reset_institution_data db i)

/-! ## Entry operations -/

/-- `INSERT INTO entries … ON CONFLICT (institution, event_number) DO UPDATE SET
data = EXCLUDED.data` against the `unique_institution_event_number` constraint
(exact column equality). -/
def upsertEntry (entries : List EntryRow) (row : EntryRow) : List EntryRow :=
  if entries.any (fun r => r.institution == row.institution
      && r.event_number == row.event_number) then
    entries.map (fun r =>
      if r.institution == row.institution && r.event_number == row.event_number then
        { r with data := row.data }
      else r)
  else entries ++ [row]

/-- `DatabaseService.save_entry`: upsert one entry, inserting with
`entry.institution.lower()`. -/
def save_entry (entries : List EntryRow) (e : EntryRow) : List EntryRow :=
  upsertEntry entries { e with institution := toLowerStr e.institution }

/-- `DatabaseService.save_entries`: batch upsert (`execute_values` with the
same `ON CONFLICT` clause, equivalent to upserting the rows in order). -/
def save_entries (entries : List EntryRow) (es : List EntryRow) : List EntryRow :=
  es.foldl (fun acc e => upsertEntry acc { e with institution := toLowerStr e.institution }) entries

/-- `DatabaseService.update_entry`: `UPDATE entries SET data = … WHERE
LOWER(TRIM(institution)) = entry.institution.lower() AND event_number = …`;
`none` models the `RecordNotFoundError` raised when no row matched. -/
def update_entry (entries : List EntryRow) (e : EntryRow) : Option (List EntryRow) :=
  if entries.any (fun r => cleanInst r.institution == toLowerStr e.institution
      && r.event_number == e.event_number) then
    some (entries.map (fun r =>
      if cleanInst r.institution == toLowerStr e.institution
          && r.event_number == e.event_number then
        { r with data := e.data }
      else r))
  else none

/-- `DatabaseManager.save_selected_entries` (`src/database_manager.py` lines
161–193), PostgreSQL part: first `DELETE FROM entries WHERE
LOWER(TRIM(institution)) = institution.strip().lower()`, then batch upsert the
supplied entry dicts under `(institution_clean, entry.get('Event Number', ''))`. -/
def dbm_save_selected_entries (entries : List EntryRow) (institution : String)
    (new_entries : List PyEntry) : List EntryRow :=
  let c := cleanInst institution
  let kept := entries.filter (fun r => !(cleanInst r.institution == c))
  new_entries.foldl (fun acc p => upsertEntry acc ⟨c, p.eventNumber, p⟩) kept

/-- An `(institution, event_number)` entry key is present in the table, keys
compared under the read-side normalization of institution names. -/
def hasEntryKey (entries : List EntryRow) (institution event_number : String) : Prop :=
  ∃ r ∈ entries, cleanInst r.institution = cleanInst institution
    ∧ r.event_number = event_number

instance (entries : List EntryRow) (i n : String) : Decidable (hasEntryKey entries i n) := by
  unfold hasEntryKey; infer_instance

/-! ## The two selected-entries readers -/

/-- `InstitutionManager.get_selected_entries`: filter the institution's
decoded entry dicts by `entry.get('Selected') == 'Select for Evaluation'`. -/
def im_get_selected_entries (entries : List PyEntry) : List PyEntry :=
  entries.filter (fun e => e.selected == some "Select for Evaluation")

/-- The `selected_only` predicate of `DatabaseService.get_entries`:
`data->>'Selected' != 'Do Not Select'` under SQL three-valued logic (a row
whose `data` has no `'Selected'` key compares to `NULL` and is excluded). -/
def sqlSelectedFilter (p : PyEntry) : Bool :=
  match p.selected with
  | some s => s != "Do Not Select"
  | none => false

/-- `DatabaseService.get_entries(institution, selected_only=True)`: the
institution's rows whose `'Selected'` value differs from `'Do Not Select'`. -/
def ds_get_entries_selected (rows : List EntryRow) (institution : String) : List EntryRow :=
  rows.filter (fun r => cleanInst r.institution == cleanInst institution
    && sqlSelectedFilter r.data)

/-- A selection flag holds one of the spec's two values, or the `'Selected'`
key is absent altogether (both readers ignore such entries). -/
def flagTwoValued (p : PyEntry) : Prop :=
  p.selected = none ∨ p.selected = some "Do Not Select"
    ∨ p.selected = some "Select for Evaluation"

instance (p : PyEntry) : Decidable (flagTwoValued p) := by
  unfold flagTwoValued; infer_instance

/-! ## Cache layer (`RedisManager`) -/

/-- The key-value store contents the cache layer reads, keyed by institution:
`{institution}:selected_entries`, `{institution}:evaluation_scores` (decoded
JSON values), and the `{institution}_stats` hash. `none` = key absent. -/
structure RedisKV where
  selected_entries : String → Option (List PyEntry)
  evaluation_scores : String → Option (List (String × Int))
  stats_hash : String → Option (ℚ × ℚ × Int)

/-- The relational values the fallback layer persists per institution:
the `selected_entries` / `evaluation_scores` documents saved by
`PostgresManager` and the `institution_stats` row. -/
structure PgKV where
  selected_entries : String → List PyEntry
  evaluation_scores : String → List (String × Int)
  institution_stats : String → Option (ℚ × ℚ × Int)

/-- `RedisManager.get_selected_entries`: return the cached list, or `[]` when
the key is absent (no fallback is attempted). -/
def rm_get_selected_entries (kv : RedisKV) (institution : String) : List PyEntry :=
  match kv.selected_entries institution with
  | some v => v
  | none => []

/-- `RedisManager.get_evaluation_scores`: return the cached scores dict, or
`{}` when the key is absent (no fallback is attempted). -/
def rm_get_evaluation_scores (kv : RedisKV) (institution : String) : List (String × Int) :=
  match kv.evaluation_scores institution with
  | some v => v
  | none => []

/-- `PostgresManager.get_institution_stats`: the stored row, defaulting to
zeros when no row exists. -/
def pm_get_institution_stats (pg : PgKV) (institution : String) : ℚ × ℚ × Int :=
  (pg.institution_stats institution).getD (0, 0, 0)

/-- `RedisManager.get_institution_stats`: the cached stats hash when present,
otherwise the value loaded from PostgreSQL. -/
def rm_get_institution_stats (kv : RedisKV) (pg : PgKV) (institution : String) : ℚ × ℚ × Int :=
  match kv.stats_hash institution with
  | some v => v
  | none => pm_get_institution_stats pg institution

/-! ## Session and authentication -/

/-- The Streamlit session-state keys the auth layer touches; `none` models an
absent key. Timestamps (`time.time()`) are exact rationals. -/
structure SessionState where
  logged_in : Option Bool := none
  user_role : Option String := none
  username : Option String := none
  last_activity : Option ℚ := none
  evaluator_logged_in : Option Bool := none
  evaluator_username : Option String := none
  evaluator_institution : Option String := none
deriving DecidableEq, Repr

/-- The `User` hierarchy (`src/app/models/user.py`): `AdminUser` or
`EvaluatorUser` with an institution. -/
inductive UserM where
  | adminUser (username : String)
  | evaluatorUser (username institution : String)
deriving DecidableEq, Repr

/-- `User.role`. -/
def UserM.role : UserM → String
  | .adminUser _ => "admin"
  | .evaluatorUser _ _ => "evaluator"

/-- `User.username`. -/
def UserM.username : UserM → String
  | .adminUser u => u
  | .evaluatorUser u _ => u

namespace AuthService

/-- `AuthService.admin_credentials`. -/
def admin_credentials : List (String × String) := [("iroils", "iROILS")]

/-- `AuthService.evaluator_credentials`: username ↦ (password, institution). -/
def evaluator_credentials : List (String × String × String) :=
  [("astam", "A3nR6yP7", "MBPCC"),
   ("kkirby", "K4wT9bQ1", "MBPCC"),
   ("dsolis", "T2hP6vC4", "MBPCC"),
   ("gpitcher", "B3kN9wL5", "MBPCC"),
   ("jashford", "P6vT8mJ2", "MBPCC"),
   ("hspears", "R4xB2gW9", "MBPCC"),
   ("aalexandrian", "1232", "UAB"),
   ("nviscariello", "L8kY5nJ3", "UAB"),
   ("rsullivan", "C7bM5nW2", "UAB"),
   ("jbelliveau", "F3rP6yV8", "UAB"),
   ("apdalton", "G5tV2cQ9", "UAB")]

/-- `AuthService.authenticate_admin`: exact username/password match against
the admin map. -/
def authenticate_admin (username password : String) : Bool :=
  match admin_credentials.lookup username with
  | some pw => pw == password
  | none => false

/-- `AuthService.authenticate_evaluator`: look the username up and compare the
password, returning the mapped institution on success. -/
def authenticate_evaluator (username password : String) : Option String :=
  match evaluator_credentials.find? (fun c => c.1 == username) with
  | some c => if c.2.1 == password then some c.2.2 else none
  | none => none

/-- `AuthService._update_session_state`: record the login, role, username and
activity timestamp, plus the evaluator-specific keys for evaluators. -/
def update_session_state (ss : SessionState) (u : UserM) (now : ℚ) : SessionState :=
  let base := { ss with logged_in := some true, user_role := some u.role,
                        username := some u.username, last_activity := some now }
  match u with
  | .adminUser _ => base
  | .evaluatorUser un inst =>
      { base with evaluator_logged_in := some true, evaluator_username := some un,
                  evaluator_institution := some inst }

/-- `AuthService.login`: admin authentication first, then evaluator; `none`
models the `InvalidCredentialsError` raised when both fail, in which case the
session state is returned untouched. -/
def login (ss : SessionState) (now : ℚ) (username password : String) :
    Option UserM × SessionState :=
  if authenticate_admin username password then
    let u := UserM.adminUser username
    (some u, update_session_state ss u now)
  else
    match authenticate_evaluator username password with
    | some institution =>
        let u := UserM.evaluatorUser username institution
        (some u, update_session_state ss u now)
    | none => (none, ss)

/-- `AuthService.logout`: pop every authentication key from the session. -/
def logout (_ss : SessionState) : SessionState :=
  { logged_in := none, user_role := none, username := none, last_activity := none,
    evaluator_logged_in := none, evaluator_username := none,
    evaluator_institution := none }

/-- `AuthService.check_session_timeout`: when `last_activity` is present and
more than `session_timeout` seconds old, log out and report the timeout;
otherwise refresh `last_activity` to the current time. -/
def check_session_timeout (session_timeout : ℚ) (ss : SessionState) (now : ℚ) :
    Bool × SessionState :=
  match ss.last_activity with
  | some t =>
      if now - t > session_timeout then (true, logout ss)
      else (false, { ss with last_activity := some now })
  | none => (false, ss)

/-- `AuthService.get_current_user`: `None` unless `logged_in`, then the
timeout check (which may clear the session), then the user rebuilt from the
session's role/username keys (Python treats the empty string as falsy). -/
def get_current_user (session_timeout : ℚ) (ss : SessionState) (now : ℚ) :
    Option UserM × SessionState :=
  if ¬ (ss.logged_in.getD false) then (none, ss)
  else
    let r := check_session_timeout session_timeout ss now
    if r.1 then (none, r.2)
    else
      match r.2.user_role, r.2.username with
      | some role, some username =>
          if role == "" || username == "" then (none, r.2)
          else if role == "admin" then (some (UserM.adminUser username), r.2)
          else if role == "evaluator" then
            match r.2.evaluator_institution with
            | some inst =>
                if inst == "" then (none, r.2)
                else (some (UserM.evaluatorUser username inst), r.2)
            | none => (none, r.2)
          else (none, r.2)
      | _, _ => (none, r.2)

/-- The `session_timeout` default of `AuthService.__init__` (15 minutes). -/
def default_session_timeout : ℚ := 900

end AuthService

namespace LoginManager

/-- `LoginManager.admin_credentials`. -/
def admin_username : String := "iroils"

/-- `LoginManager.admin_credentials` password. -/
def admin_password : String := "iROILS"

/-- `LoginManager.evaluator_credentials` (this legacy map differs from
`AuthService`'s in two entries). -/
def evaluator_credentials : List (String × String × String) :=
  [("astam", "A3nR6yP7", "MBPCC"),
   ("kkirby", "K4wT9bQ1", "MBPCC"),
   ("dsolis", "T2hP6vC4", "MBPCC"),
   ("gpitcher", "B3kN9wL5", "MBPCC"),
   ("jashford", "P6vT8mJ2", "MBPCC"),
   ("hspears", "R4xB2gW9", "MBPCC"),
   ("aalexandrian", "M7jH2xV5", "UAB"),
   ("nviscariello", "L8kY5nJ3", "UAB"),
   ("rsullivan", "C7bM5nW2", "UAB"),
   ("jbelliveau", "F3rP6yV8", "UAB"),
   ("lrobinson", "G5tV2cQ9", "UAB")]

/-- `LoginManager.session_timeout`: 15 minutes. -/
def session_timeout : ℚ := 15 * 60

/-- `LoginManager.login`: admin credentials check; on success set
`user_role = 'admin'` and the activity timestamp. -/
def login (ss : SessionState) (now : ℚ) (username password : String) :
    Bool × SessionState :=
  if username == admin_username && password == admin_password then
    (true, { ss with user_role := some "admin", last_activity := some now })
  else (false, ss)

/-- `LoginManager.evaluator_login`: evaluator credentials check; on success
set the evaluator keys, the role, the mapped institution and the timestamp. -/
def evaluator_login (ss : SessionState) (now : ℚ) (username password : String) :
    Bool × SessionState :=
  match evaluator_credentials.find? (fun c => c.1 == username) with
  | some c =>
      if c.2.1 == password then
        (true, { ss with evaluator_logged_in := some true,
                         evaluator_username := some username,
                         user_role := some "evaluator",
                         evaluator_institution := some c.2.2,
                         last_activity := some now })
      else (false, ss)
  | none => (false, ss)

/-- `LoginManager.logout`: pop the five keys this class manages (it never
sets `logged_in`/`username`, so those are left untouched). -/
def logout (ss : SessionState) : SessionState :=
  { ss with user_role := none, evaluator_logged_in := none,
            evaluator_username := none, evaluator_institution := none,
            last_activity := none }

/-- `LoginManager.check_session_timeout`: same logic as the service version,
against the fixed 15-minute timeout. -/
def check_session_timeout (ss : SessionState) (now : ℚ) : Bool × SessionState :=
  match ss.last_activity with
  | some t =>
      if now - t > session_timeout then (true, logout ss)
      else (false, { ss with last_activity := some now })
  | none => (false, ss)

end LoginManager

/-- Concrete empty cache (all keys absent). -/
def rmMiss : RedisKV := ⟨fun _ => none, fun _ => none, fun _ => none⟩

/-- Concrete cache with all three keys present. -/
def rmHit : RedisKV :=
  ⟨fun _ => some [⟨"7", some "Select for Evaluation", "cached"⟩],
   fun _ => some [("7", 5)],
   fun _ => some (9, 7, 2)⟩

/-- Concrete relational contents differing from the miss defaults. -/
def pgDemo : PgKV :=
  ⟨fun _ => [⟨"1", some "Select for Evaluation", "stored"⟩],
   fun _ => [("1", 4)],
   fun _ => some (5, 4, 1)⟩

/-- C7 counterexample rows: the admin selection page stores the third flag
value `'Selected'`. -/
def rowsThirdFlag : List EntryRow := [⟨"uab", "1", ⟨"1", some "Selected", "x"⟩⟩]

/-- C7 witness rows. -/
def rowsTwoValued : List EntryRow :=
  [⟨"uab", "1", ⟨"1", some "Select for Evaluation", "a"⟩⟩,
   ⟨"uab", "2", ⟨"2", some "Do Not Select", "b"⟩⟩]

/-- The store for the C6 counterexample: one entry for the institution. -/
def entriesOne : List EntryRow := [⟨"uab", "1", ⟨"1", some "Do Not Select", "x"⟩⟩]

/-! ### Credential-map machinery -/

/-- The lookup-then-check-password pattern shared by the evaluator credential
checks: first map entry for the username, then exact password comparison,
returning the mapped institution. -/
def lookupCred (l : List (String × String × String)) (u p : String) : Option String :=
  match l.find? (fun c => c.1 == u) with
  | some c => if c.2.1 == p then some c.2.2 else none
  | none => none

/-- C9 witness state: a logged-in admin session last active at time 0. -/
def ssAdmin : SessionState :=
  { logged_in := some true, user_role := some "admin",
    username := some "iroils", last_activity := some 0 }

/-! ### Evaluation-table well-formedness -/

/-- Every stored institution is in normalized form and the unique-key
constraint holds: pairwise distinct raw keys. -/
def EvalTableWf (evals : List EvalRow) : Prop :=
  (∀ r ∈ evals, cleanInst r.institution = r.institution)
  ∧ evals.Pairwise (fun a b => rawEvalKey a ≠ rawEvalKey b)

/-- States of the evaluations table reachable by `save_evaluation` calls with
canonical institution strings. -/
inductive EvalsReachable : List EvalRow → Prop
  | init : EvalsReachable []
  | save (l : List EvalRow) (e : EvalRow) : EvalsReachable l → canonicalInst e.institution →
      EvalsReachable (save_evaluation l e).2

/-- The score/feedback overwrite applied by the evaluation upsert. -/
def overwriteScores (e : EvalRow) (r : EvalRow) : EvalRow :=
  { r with summary_score := e.summary_score, tag_score := e.tag_score,
           feedback := e.feedback }

/-- The row actually inserted by `save_evaluation` (institution lowered). -/
def loweredRow (e : EvalRow) : EvalRow :=
  { e with institution := toLowerStr e.institution }

/-! ### Stats-table well-formedness and lookup lemmas -/

/-- Normalized institutions and the `PRIMARY KEY (institution)` constraint:
pairwise distinct institution columns. -/
def StatsTableWf (stats : List InstitutionStats) : Prop :=
  (∀ r ∈ stats, cleanInst r.institution = r.institution)
  ∧ stats.Pairwise (fun a b => a.institution ≠ b.institution)

/-- The three value columns of a stats record. -/
def statsTriple (s : InstitutionStats) : ℚ × ℚ × Int :=
  (s.cumulative_summary, s.cumulative_tag, s.total_evaluations)

/-- The aggregate triple recomputed from the evaluations table. -/
def aggTriple (evals : List EvalRow) (i : String) : ℚ × ℚ × Int :=
  (sumSummary evals i, sumTag evals i, countEvals evals i)

/-- The combined induction invariant: both tables well-formed and the stored
stats agreeing with the recomputed aggregates at every institution. -/
def DBInv (db : DBState) : Prop :=
  EvalTableWf db.evaluations ∧ StatsTableWf db.stats ∧ ∀ i, statsInvariant db i

/-- The state after writing an evaluation under `'uab '` (trailing space) and
then one under `'uab'` for the same evaluator and entry. -/
def dbWhitespace : DBState :=
  submitEvaluation (submitEvaluation DBState.empty ⟨"uab ", "v", "1", 5, 5, ""⟩)
    ⟨"uab", "v", "1", 3, 3, ""⟩

/-- C1 witness state: one canonical write from empty. -/
def dbWitness : DBState := submitEvaluation DBState.empty ⟨"uab", "v", "1", 5, 4, ""⟩

/-! ## Theorems -/

-- sanity checks on concrete values
example : cleanInst " UaB " = "uab" := by decide

example : cleanInst "uab" = "uab" := by decide

example : (InstitutionStats.add_evaluation ⟨"uab", 3, 4, 1⟩ 5 2).cumulative_summary = 8 := by
  norm_num [InstitutionStats.add_evaluation]

-- sanity checks
example : canonicalInst "uab" := by decide

example : ¬ canonicalInst "uab " := by decide

example :
    get_evaluation (save_evaluation [] ⟨"uab", "v", "1", 5, 4, ""⟩).2 "uab" "v" "1"
      = some ⟨"uab", "v", "1", 5, 4, ""⟩ := by decide


/-- C2: adjusting institution stats is add-on-create and delta-adjust-on-update:
`add_evaluation` adds exactly the two scores and one to the count;
`update_evaluation` adds exactly the score deltas and keeps the count; the
Redis read-modify-write (`RedisManager.update_institution_stats`) does the
same on the cached triple. -/
theorem stats_adjust_add_on_create_delta_on_update :
    ∀ (st : InstitutionStats) (s t os ns ot nt : ℚ),
      ((st.add_evaluation s t).cumulative_summary = st.cumulative_summary + s
        ∧ (st.add_evaluation s t).cumulative_tag = st.cumulative_tag + t
        ∧ (st.add_evaluation s t).total_evaluations = st.total_evaluations + 1)
      ∧ ((st.update_evaluation os ns ot nt).cumulative_summary
            = st.cumulative_summary + (ns - os)
        ∧ (st.update_evaluation os ns ot nt).cumulative_tag
            = st.cumulative_tag + (nt - ot)
        ∧ (st.update_evaluation os ns ot nt).total_evaluations = st.total_evaluations)
      ∧ (∀ (c₁ c₂ : ℚ) (n : Int),
          redisAdjustStats (some (c₁, c₂, n)) s t true 0 0 = (c₁ + s, c₂ + t, n + 1)
          ∧ redisAdjustStats (some (c₁, c₂, n)) ns nt false os ot
              = (c₁ + (ns - os), c₂ + (nt - ot), n)) := by
  intro st s t os ns ot nt
  refine ⟨⟨rfl, rfl, rfl⟩, ⟨rfl, rfl, rfl⟩, fun c₁ c₂ n => ⟨?_, ?_⟩⟩ <;>
    · simp only [redisAdjustStats, Option.map_some', Option.getD_some,
        if_true, if_false, Prod.mk.injEq]
      refine ⟨by ring, by ring, by simp⟩

/-- C4: the averages reported on read are recomputed from the stored running
totals as cumulative divided by count whenever any evaluations exist. -/
theorem averages_recomputed_from_totals (st : InstitutionStats)
    (h : 0 < st.total_evaluations) :
    st.average_summary = st.cumulative_summary / (st.total_evaluations : ℚ)
    ∧ st.average_tag = st.cumulative_tag / (st.total_evaluations : ℚ) := by
  unfold InstitutionStats.average_summary InstitutionStats.average_tag
  rw [if_pos h, if_pos h]
  exact ⟨rfl, rfl⟩

/-- Witness for C4 at a concrete stats value. -/
theorem averages_recomputed_from_totals_witness :
    InstitutionStats.average_summary ⟨"uab", 8, 6, 2⟩ = 8 / (((2 : Int)) : ℚ)
    ∧ InstitutionStats.average_tag ⟨"uab", 8, 6, 2⟩ = 6 / (((2 : Int)) : ℚ) :=
  averages_recomputed_from_totals ⟨"uab", 8, 6, 2⟩ (by norm_num)

/-- C10: the average computations are total; with zero evaluations both
averages return `0.0` and the division is never taken. -/
theorem averages_total_at_zero (st : InstitutionStats)
    (h : st.total_evaluations = 0) :
    st.average_summary = 0 ∧ st.average_tag = 0 := by
  simp [InstitutionStats.average_summary, InstitutionStats.average_tag, h]

/-- Witness for C10 at the all-zero stats value. -/
theorem averages_total_at_zero_witness :
    InstitutionStats.average_summary ⟨"uab", 0, 0, 0⟩ = 0
    ∧ InstitutionStats.average_tag ⟨"uab", 0, 0, 0⟩ = 0 :=
  averages_total_at_zero ⟨"uab", 0, 0, 0⟩ rfl

/-- C5 amended. -/
theorem cache_read_hit_and_stats_fallback (kv : RedisKV) (pg : PgKV) (i : String) :
    (∀ v, kv.selected_entries i = some v → rm_get_selected_entries kv i = v)
    ∧ (kv.selected_entries i = none → rm_get_selected_entries kv i = [])
    ∧ (∀ v, kv.evaluation_scores i = some v → rm_get_evaluation_scores kv i = v)
    ∧ (kv.evaluation_scores i = none → rm_get_evaluation_scores kv i = [])
    ∧ (∀ v, kv.stats_hash i = some v → rm_get_institution_stats kv pg i = v)
    ∧ (kv.stats_hash i = none →
        rm_get_institution_stats kv pg i = pm_get_institution_stats pg i) := by
  refine ⟨fun v h => ?_, fun h => ?_, fun v h => ?_, fun h => ?_, fun v h => ?_, fun h => ?_⟩ <;>
    simp [rm_get_selected_entries, rm_get_evaluation_scores, rm_get_institution_stats, h]

/-- C5 counterexample. -/
theorem cache_read_no_fallback_counterexample :
    rmMiss.selected_entries "uab" = none
    ∧ rm_get_selected_entries rmMiss "uab" ≠ pgDemo.selected_entries "uab"
    ∧ rmMiss.evaluation_scores "uab" = none
    ∧ rm_get_evaluation_scores rmMiss "uab" ≠ pgDemo.evaluation_scores "uab" := by
  refine ⟨rfl, ?_, rfl, ?_⟩ <;> decide

/-- C5 witness. -/
theorem cache_read_hit_and_stats_fallback_witness :
    rm_get_selected_entries rmHit "uab" = [⟨"7", some "Select for Evaluation", "cached"⟩]
    ∧ rm_get_institution_stats rmMiss pgDemo "uab" = pm_get_institution_stats pgDemo "uab" :=
  ⟨(cache_read_hit_and_stats_fallback rmHit pgDemo "uab").1 _ rfl,
   (cache_read_hit_and_stats_fallback rmMiss pgDemo "uab").2.2.2.2.2 rfl⟩

/-- C7 amended. -/
theorem selected_readers_agree (rows : List EntryRow) (i : String)
    (h : ∀ r ∈ rows, flagTwoValued r.data) :
    (ds_get_entries_selected rows i).map (fun r => r.data)
      = im_get_selected_entries
          ((rows.filter (fun r => cleanInst r.institution == cleanInst i)).map
            (fun r => r.data)) := by
  unfold ds_get_entries_selected im_get_selected_entries
  rw [List.filter_map, List.filter_filter]
  refine congrArg (List.map _) (List.filter_congr ?_)
  intro r hr
  rcases h r hr with h1 | h1 | h1 <;>
    simp [sqlSelectedFilter, h1, Function.comp, Bool.and_comm]

/-- C7 counterexample. -/
theorem selected_readers_disagree_counterexample :
    ¬ flagTwoValued (PyEntry.mk "1" (some "Selected") "x")
    ∧ (ds_get_entries_selected rowsThirdFlag "uab").map (fun r => r.data)
      ≠ im_get_selected_entries
          ((rowsThirdFlag.filter (fun r => cleanInst r.institution == cleanInst "uab")).map
            (fun r => r.data)) := by
  exact ⟨by decide, by decide⟩

/-- C7 witness. -/
theorem selected_readers_agree_witness :
    (ds_get_entries_selected rowsTwoValued "uab").map (fun r => r.data)
      = im_get_selected_entries
          ((rowsTwoValued.filter (fun r => cleanInst r.institution == cleanInst "uab")).map
            (fun r => r.data)) :=
  selected_readers_agree rowsTwoValued "uab" (by decide)

/-! ### Entry-key preservation lemmas -/

/-- A map that does not touch the key columns preserves entry keys. -/
theorem hasEntryKey_map {l : List EntryRow} {f : EntryRow → EntryRow}
    (hf : ∀ x, (f x).institution = x.institution ∧ (f x).event_number = x.event_number)
    {i n : String} (h : hasEntryKey l i n) : hasEntryKey (l.map f) i n := by
  obtain ⟨r, hr, h1, h2⟩ := h
  exact ⟨f r, List.mem_map_of_mem f hr,
    by rw [(hf r).1]; exact h1, by rw [(hf r).2]; exact h2⟩

/-- Appending rows preserves entry keys. -/
theorem hasEntryKey_append_left {l l' : List EntryRow} {i n : String}
    (h : hasEntryKey l i n) : hasEntryKey (l ++ l') i n := by
  obtain ⟨r, hr, h1, h2⟩ := h
  exact ⟨r, List.mem_append_left _ hr, h1, h2⟩

/-- Upserting a row preserves every existing entry key. -/
theorem hasEntryKey_upsertEntry_mono {l : List EntryRow} {row : EntryRow} {i n : String}
    (h : hasEntryKey l i n) : hasEntryKey (upsertEntry l row) i n := by
  unfold upsertEntry
  split
  · exact hasEntryKey_map (fun x => by split <;> exact ⟨rfl, rfl⟩) h
  · exact hasEntryKey_append_left h

/-- After upserting a row, that row's own key is present. -/
theorem hasEntryKey_upsertEntry_self (l : List EntryRow) (row : EntryRow) :
    hasEntryKey (upsertEntry l row) row.institution row.event_number := by
  unfold upsertEntry
  split
  · next ha =>
    obtain ⟨r, hr, hc⟩ := List.any_eq_true.mp ha
    rw [Bool.and_eq_true, beq_iff_eq, beq_iff_eq] at hc
    refine ⟨{ r with data := row.data }, ?_, by simp [hc.1], hc.2⟩
    have he : (fun x => if x.institution == row.institution
        && x.event_number == row.event_number then { x with data := row.data } else x) r
        = { r with data := row.data } := by
      simp [hc.1, hc.2]
    exact he ▸ List.mem_map_of_mem _ hr
  · exact ⟨row, by simp, rfl, rfl⟩

/-- A fold of key-preserving steps preserves entry keys. -/
theorem hasEntryKey_foldl {α : Type} (step : List EntryRow → α → List EntryRow)
    (hstep : ∀ acc a i n, hasEntryKey acc i n → hasEntryKey (step acc a) i n)
    (es : List α) (acc : List EntryRow) (i n : String) (h : hasEntryKey acc i n) :
    hasEntryKey (es.foldl step acc) i n := by
  induction es generalizing acc with
  | nil => exact h
  | cons a as ih => exact ih _ (hstep _ _ _ _ h)

/-- Folding the upserts of `DatabaseManager.save_selected_entries` establishes
the key of every supplied entry. -/
theorem hasEntryKey_foldl_inserts (c : String) (es : List PyEntry) (acc : List EntryRow)
    (p : PyEntry) (hp : p ∈ es) :
    hasEntryKey (es.foldl (fun a q => upsertEntry a ⟨c, q.eventNumber, q⟩) acc)
      c p.eventNumber := by
  induction es generalizing acc with
  | nil => cases hp
  | cons q qs ih =>
    rcases List.mem_cons.mp hp with rfl | hp
    · exact hasEntryKey_foldl _ (fun _ _ _ _ h => hasEntryKey_upsertEntry_mono h) qs _ _ _
        (hasEntryKey_upsertEntry_self acc ⟨c, p.eventNumber, p⟩)
    · exact ih (upsertEntry acc ⟨c, q.eventNumber, q⟩) hp

/-- C6 amended. -/
theorem entry_keys_preserved_except_reset
    (entries : List EntryRow) (e : EntryRow) (es : List EntryRow) (db : DBState)
    (ev : EvalRow) (inst : String) (new_entries : List PyEntry) (i n : String) :
    (hasEntryKey entries i n → hasEntryKey (save_entry entries e) i n)
    ∧ (hasEntryKey entries i n → hasEntryKey (save_entries entries es) i n)
    ∧ (∀ l', update_entry entries e = some l' →
        hasEntryKey entries i n → hasEntryKey l' i n)
    ∧ ((submitEvaluation db ev).entries = db.entries)
    ∧ (cleanInst inst = inst →
        (∀ r ∈ entries, cleanInst r.institution = cleanInst inst →
          ∃ p ∈ new_entries, p.eventNumber = r.event_number) →
        hasEntryKey entries i n →
        hasEntryKey (dbm_save_selected_entries entries inst new_entries) i n) := by
  refine ⟨fun h => hasEntryKey_upsertEntry_mono h,
          fun h => hasEntryKey_foldl _ (fun _ _ _ _ hk => hasEntryKey_upsertEntry_mono hk)
            es entries i n h,
          fun l' hl hk => ?_, rfl, fun hinst hcover hk => ?_⟩
  · unfold update_entry at hl
    split at hl
    · cases hl
      exact hasEntryKey_map (fun x => by split <;> exact ⟨rfl, rfl⟩) hk
    · cases hl
  · obtain ⟨r, hr, h1, h2⟩ := hk
    unfold dbm_save_selected_entries
    by_cases hc : cleanInst r.institution = cleanInst inst
    · -- the row is deleted by the replace; the supplied list must cover it
      obtain ⟨p, hp, hpe⟩ := hcover r hr hc
      have hkey := hasEntryKey_foldl_inserts (cleanInst inst) new_entries
        (entries.filter (fun x => !(cleanInst x.institution == cleanInst inst))) p hp
      obtain ⟨r', hr', h1', h2'⟩ := hkey
      refine ⟨r', hr', ?_, ?_⟩
      · rw [h1']
        rw [hinst]
        rw [← h1]
        exact hc.symm ▸ hinst.symm ▸ rfl
      · rw [h2', hpe, h2]
    · -- the row survives the delete and all subsequent upserts
      have hmem : r ∈ entries.filter (fun x => !(cleanInst x.institution == cleanInst inst)) := by
        rw [List.mem_filter]
        exact ⟨hr, by simpa using hc⟩
      exact hasEntryKey_foldl _ (fun _ _ _ _ hkk => hasEntryKey_upsertEntry_mono hkk)
        new_entries _ i n ⟨r, hmem, h1, h2⟩

/-- C6 counterexample: the legacy bulk save deletes the institution's entries
that the supplied list does not contain. -/
theorem bulk_save_deletes_entry_counterexample :
    hasEntryKey entriesOne "uab" "1"
    ∧ ¬ hasEntryKey (dbm_save_selected_entries entriesOne "uab" []) "uab" "1" := by
  exact ⟨by decide, by decide⟩

/-- C6 witness: concrete instantiation of the amended frame property. -/
theorem entry_keys_preserved_except_reset_witness :
    hasEntryKey (dbm_save_selected_entries entriesOne "uab"
      [⟨"1", some "Select for Evaluation", "x"⟩]) "uab" "1" :=
  (entry_keys_preserved_except_reset entriesOne ⟨"uab", "9", ⟨"9", none, "y"⟩⟩ []
      DBState.empty ⟨"uab", "v", "1", 5, 5, ""⟩ "uab"
      [⟨"1", some "Select for Evaluation", "x"⟩] "uab" "1").2.2.2.2
    (by decide) (by decide) (by decide)

/-- On a map with pairwise-distinct usernames, `lookupCred` returns an
institution exactly for the map's triples. -/
theorem lookupCred_eq_some_iff (l : List (String × String × String))
    (hnd : (l.map Prod.fst).Nodup) (u p inst : String) :
    lookupCred l u p = some inst ↔ (u, p, inst) ∈ l := by
  induction l with
  | nil => simp [lookupCred]
  | cons c cs ih =>
    obtain ⟨cu, cp, ci⟩ := c
    simp only [List.map_cons, List.nodup_cons] at hnd
    by_cases hc : cu = u
    · subst hc
      unfold lookupCred
      rw [List.find?_cons_of_pos _ (by simp)]
      simp only [List.mem_cons, Prod.mk.injEq, true_and]
      constructor
      · intro h
        by_cases hpw : cp = p
        · rw [if_pos (by simp [hpw])] at h
          cases h
          exact Or.inl ⟨hpw.symm, rfl⟩
        · rw [if_neg (by simp [hpw])] at h
          cases h
      · intro h
        rcases h with ⟨hp, hi⟩ | hmem
        · rw [← hp, ← hi, if_pos (by simp)]
        · exact absurd (List.mem_map_of_mem Prod.fst hmem) hnd.1
    · unfold lookupCred
      rw [List.find?_cons_of_neg _ (by simp [hc])]
      rw [show (match cs.find? (fun c => c.1 == u) with
          | some c => if c.2.1 == p then some c.2.2 else none
          | none => none) = lookupCred cs u p from rfl]
      rw [ih hnd.2]
      simp only [List.mem_cons, Prod.mk.injEq]
      constructor
      · intro h
        exact Or.inr h
      · intro h
        rcases h with ⟨hu, _⟩ | hmem
        · exact absurd hu.symm hc
        · exact hmem

/-- `AuthService.authenticate_evaluator` is the lookup-then-check pattern on
the service's credential map. -/
theorem authenticate_evaluator_eq (u p : String) :
    AuthService.authenticate_evaluator u p = lookupCred AuthService.evaluator_credentials u p :=
  rfl

/-- `authenticate_evaluator` returns an institution exactly for the triples of
the service's evaluator map. -/
theorem authenticate_evaluator_iff (u p inst : String) :
    AuthService.authenticate_evaluator u p = some inst
      ↔ (u, p, inst) ∈ AuthService.evaluator_credentials := by
  rw [authenticate_evaluator_eq]
  exact lookupCred_eq_some_iff _ (by decide) u p inst

/-- `authenticate_admin` succeeds exactly on the pairs of the admin map. -/
theorem authenticate_admin_iff (u p : String) :
    AuthService.authenticate_admin u p = true ↔ (u, p) ∈ AuthService.admin_credentials := by
  unfold AuthService.authenticate_admin AuthService.admin_credentials
  by_cases hu : u = "iroils"
  · subst hu
    rw [show List.lookup "iroils" [("iroils", "iROILS")] = some "iROILS" from rfl]
    show ("iROILS" == p) = true ↔ _
    rw [beq_iff_eq]
    constructor
    · intro h
      rw [← h]
      exact List.mem_singleton.mpr rfl
    · intro h
      have := List.mem_singleton.mp h
      rw [Prod.mk.injEq] at this
      exact this.2.symm
  · rw [show List.lookup u [("iroils", "iROILS")] = none by
      unfold List.lookup
      rw [show (u == "iroils") = false by simp [hu]]
      rfl]
    simp only [List.mem_singleton, Prod.mk.injEq]
    constructor
    · intro h
      cases h
    · intro h
      exact absurd h.1 hu

/-- The success flag of `AuthService.login` in terms of the two
authentication checks (admin first, then evaluator). -/
theorem login_isSome_eq (ss : SessionState) (now : ℚ) (u p : String) :
    (AuthService.login ss now u p).1.isSome
      = (AuthService.authenticate_admin u p || (AuthService.authenticate_evaluator u p).isSome) := by
  unfold AuthService.login
  split
  · next h => simp [h]
  · next h =>
    rcases hx : AuthService.authenticate_evaluator u p with _ | i <;>
      simp [h, hx]

/-- C8. -/
theorem login_succeeds_iff_credentials_match (ss : SessionState) (now : ℚ) (u p : String) :
    ((u, p) ∈ AuthService.admin_credentials →
      (AuthService.login ss now u p).1 = some (UserM.adminUser u)
      ∧ (AuthService.login ss now u p).2.logged_in = some true
      ∧ (AuthService.login ss now u p).2.user_role = some "admin")
    ∧ (∀ i, (u, p, i) ∈ AuthService.evaluator_credentials →
      (AuthService.login ss now u p).1 = some (UserM.evaluatorUser u i)
      ∧ (AuthService.login ss now u p).2.logged_in = some true
      ∧ (AuthService.login ss now u p).2.user_role = some "evaluator"
      ∧ (AuthService.login ss now u p).2.evaluator_institution = some i)
    ∧ (((u, p) ∉ AuthService.admin_credentials
        ∧ ∀ i, (u, p, i) ∉ AuthService.evaluator_credentials) →
      AuthService.login ss now u p = (none, ss))
    ∧ ((AuthService.login ss now u p).1.isSome = true
        ↔ (u, p) ∈ AuthService.admin_credentials
          ∨ ∃ i, (u, p, i) ∈ AuthService.evaluator_credentials)
    ∧ ((u = LoginManager.admin_username ∧ p = LoginManager.admin_password) →
      LoginManager.login ss now u p
        = (true, { ss with user_role := some "admin", last_activity := some now }))
    ∧ (¬ (u = LoginManager.admin_username ∧ p = LoginManager.admin_password) →
      LoginManager.login ss now u p = (false, ss))
    ∧ (∀ i, (u, p, i) ∈ LoginManager.evaluator_credentials →
      LoginManager.evaluator_login ss now u p
        = (true, { ss with
                    evaluator_logged_in := some true,
                    evaluator_username := some u,
                    user_role := some "evaluator",
                    evaluator_institution := some i,
                    last_activity := some now }))
    ∧ ((∀ i, (u, p, i) ∉ LoginManager.evaluator_credentials) →
      LoginManager.evaluator_login ss now u p = (false, ss)) := by
  refine ⟨?_, ?_, ?_, ?_, ?_, ?_, ?_, ?_⟩
  · intro h
    have ha := (authenticate_admin_iff u p).mpr h
    simp [AuthService.login, ha, AuthService.update_session_state, UserM.role, UserM.username]
  · intro i h
    have he : AuthService.authenticate_evaluator u p = some i :=
      (authenticate_evaluator_iff u p i).mpr h
    have hu : u ≠ "iroils" := by
      intro hx
      subst hx
      have h2 : "iroils" ∈ List.map Prod.fst AuthService.evaluator_credentials :=
        List.mem_map_of_mem Prod.fst h
      exact absurd h2 (by decide)
    have ha : AuthService.authenticate_admin u p = false := by
      cases hb : AuthService.authenticate_admin u p
      · rfl
      · have := (authenticate_admin_iff u p).mp hb
        simp only [AuthService.admin_credentials, List.mem_singleton, Prod.mk.injEq] at this
        exact absurd this.1 hu
    simp [AuthService.login, ha, he, AuthService.update_session_state, UserM.role, UserM.username]
  · intro h
    have ha : AuthService.authenticate_admin u p = false := by
      cases hb : AuthService.authenticate_admin u p
      · rfl
      · exact absurd ((authenticate_admin_iff u p).mp hb) h.1
    have he : AuthService.authenticate_evaluator u p = none := by
      rcases hx : AuthService.authenticate_evaluator u p with _ | i
      · rfl
      · exact absurd ((authenticate_evaluator_iff u p i).mp hx) (h.2 i)
    simp [AuthService.login, ha, he]
  · rw [login_isSome_eq, Bool.or_eq_true]
    rw [authenticate_admin_iff]
    rw [Option.isSome_iff_exists]
    constructor
    · rintro (h | ⟨i, hi⟩)
      · exact Or.inl h
      · exact Or.inr ⟨i, (authenticate_evaluator_iff u p i).mp hi⟩
    · rintro (h | ⟨i, hi⟩)
      · exact Or.inl h
      · exact Or.inr ⟨i, (authenticate_evaluator_iff u p i).mpr hi⟩
  · rintro ⟨h1, h2⟩
    subst h1
    subst h2
    rfl
  · intro h
    have hc : (u == LoginManager.admin_username && p == LoginManager.admin_password) = false := by
      rcases not_and_or.mp h with h1 | h1 <;> simp [h1]
    simp [LoginManager.login, hc]
  · intro i h
    have hlc : lookupCred LoginManager.evaluator_credentials u p = some i :=
      (lookupCred_eq_some_iff _ (by decide) u p i).mpr h
    unfold lookupCred at hlc
    rcases hf : LoginManager.evaluator_credentials.find? (fun c => c.1 == u) with _ | c
    · rw [hf] at hlc
      exact absurd hlc (by simp)
    · obtain ⟨c1, cp, ci⟩ := c
      rw [hf] at hlc
      by_cases hpw : (cp == p) = true
      · have hi : ci = i := by
          simpa [hpw] using hlc
        unfold LoginManager.evaluator_login
        simp [hf, hpw, hi]
      · exact absurd hlc (by simp [hpw])
  · intro h
    rcases hf : LoginManager.evaluator_credentials.find? (fun c => c.1 == u) with _ | c
    · unfold LoginManager.evaluator_login
      simp [hf]
    · obtain ⟨c1, cp, ci⟩ := c
      have hcu : c1 = u := by
        have := List.find?_some hf
        rwa [beq_iff_eq] at this
      by_cases hpw : (cp == p) = true
      · exfalso
        have hcp : cp = p := by rwa [beq_iff_eq] at hpw
        have hmem : (u, p, ci) ∈ LoginManager.evaluator_credentials := by
          rw [← hcu, ← hcp]
          exact List.mem_of_find?_eq_some hf
        exact h ci hmem
      · unfold LoginManager.evaluator_login
        simp [hf, hpw]

/-- C8 witness. -/
theorem login_succeeds_iff_credentials_match_witness :
    (AuthService.login {} 0 "iroils" "iROILS").1 = some (UserM.adminUser "iroils")
    ∧ (AuthService.login {} 0 "aalexandrian" "1232").2.evaluator_institution = some "UAB"
    ∧ AuthService.login {} 0 "nobody" "wrong" = (none, {}) :=
  ⟨((login_succeeds_iff_credentials_match {} 0 "iroils" "iROILS").1 (by decide)).1,
   ((login_succeeds_iff_credentials_match {} 0 "aalexandrian" "1232").2.1 "UAB"
      (by decide)).2.2.2,
   (login_succeeds_iff_credentials_match {} 0 "nobody" "wrong").2.2.1
      ⟨by decide, fun i hmem => by simp [AuthService.evaluator_credentials] at hmem⟩⟩

/-- C9. -/
theorem session_timeout_enforced (timeout : ℚ) (ss : SessionState) (now t : ℚ)
    (hla : ss.last_activity = some t) :
    (now - t > timeout →
      (AuthService.check_session_timeout timeout ss now).1 = true
      ∧ (AuthService.check_session_timeout timeout ss now).2 = AuthService.logout ss
      ∧ (AuthService.check_session_timeout timeout ss now).2.logged_in = none
      ∧ (AuthService.check_session_timeout timeout ss now).2.user_role = none
      ∧ (AuthService.check_session_timeout timeout ss now).2.username = none
      ∧ (AuthService.check_session_timeout timeout ss now).2.last_activity = none
      ∧ (AuthService.check_session_timeout timeout ss now).2.evaluator_logged_in = none
      ∧ (AuthService.check_session_timeout timeout ss now).2.evaluator_username = none
      ∧ (AuthService.check_session_timeout timeout ss now).2.evaluator_institution = none
      ∧ (AuthService.get_current_user timeout ss now).1 = none
      ∧ (AuthService.get_current_user timeout ss now).2.logged_in ≠ some true)
    ∧ (now - t ≤ timeout →
      (AuthService.check_session_timeout timeout ss now).1 = false
      ∧ (AuthService.check_session_timeout timeout ss now).2
          = { ss with last_activity := some now }
      ∧ (∀ un, ss.logged_in = some true → ss.user_role = some "admin" →
          ss.username = some un → ¬ un = "" →
          AuthService.get_current_user timeout ss now
            = (some (UserM.adminUser un), { ss with last_activity := some now }))
      ∧ (∀ un i, ss.logged_in = some true → ss.user_role = some "evaluator" →
          ss.username = some un → ss.evaluator_institution = some i →
          ¬ un = "" → ¬ i = "" →
          AuthService.get_current_user timeout ss now
            = (some (UserM.evaluatorUser un i), { ss with last_activity := some now })))
    ∧ (now - t > LoginManager.session_timeout →
      (LoginManager.check_session_timeout ss now).1 = true
      ∧ (LoginManager.check_session_timeout ss now).2.user_role = none
      ∧ (LoginManager.check_session_timeout ss now).2.last_activity = none
      ∧ (LoginManager.check_session_timeout ss now).2.evaluator_logged_in = none
      ∧ (LoginManager.check_session_timeout ss now).2.evaluator_username = none
      ∧ (LoginManager.check_session_timeout ss now).2.evaluator_institution = none)
    ∧ (now - t ≤ LoginManager.session_timeout →
      (LoginManager.check_session_timeout ss now).1 = false
      ∧ (LoginManager.check_session_timeout ss now).2
          = { ss with last_activity := some now }) := by
  refine ⟨fun hgt => ?_, fun hle => ?_, fun hgt => ?_, fun hle => ?_⟩
  · have hcheck : AuthService.check_session_timeout timeout ss now
        = (true, AuthService.logout ss) := by
      simp only [AuthService.check_session_timeout, hla]
      rw [if_pos hgt]
    refine ⟨by rw [hcheck], by rw [hcheck], by rw [hcheck]; rfl, by rw [hcheck]; rfl,
      by rw [hcheck]; rfl, by rw [hcheck]; rfl, by rw [hcheck]; rfl, by rw [hcheck]; rfl,
      by rw [hcheck]; rfl, ?_, ?_⟩
    · rcases hlg : ss.logged_in with _ | b
      · simp [AuthService.get_current_user, hlg]
      · cases b
        · simp [AuthService.get_current_user, hlg]
        · simp [AuthService.get_current_user, hlg, hcheck]
    · rcases hlg : ss.logged_in with _ | b
      · simp [AuthService.get_current_user, hlg]
      · cases b
        · simp [AuthService.get_current_user, hlg]
        · simp [AuthService.get_current_user, hlg, hcheck, AuthService.logout]
  · have hcheck : AuthService.check_session_timeout timeout ss now
        = (false, { ss with last_activity := some now }) := by
      simp only [AuthService.check_session_timeout, hla]
      rw [if_neg (not_lt.mpr hle)]
    refine ⟨by rw [hcheck], by rw [hcheck], ?_, ?_⟩
    · intro u1 hlg hur hun hne
      simp [AuthService.get_current_user, hlg, hcheck, hur, hun, hne]
    · intro u1 i1 hlg hur hun hei hne1 hne2
      simp [AuthService.get_current_user, hlg, hcheck, hur, hun, hei, hne1, hne2]
  · have hcheck : LoginManager.check_session_timeout ss now
        = (true, LoginManager.logout ss) := by
      simp only [LoginManager.check_session_timeout, hla]
      rw [if_pos hgt]
    exact ⟨by rw [hcheck], by rw [hcheck]; rfl, by rw [hcheck]; rfl, by rw [hcheck]; rfl,
      by rw [hcheck]; rfl, by rw [hcheck]; rfl⟩
  · have hcheck : LoginManager.check_session_timeout ss now
        = (false, { ss with last_activity := some now }) := by
      simp only [LoginManager.check_session_timeout, hla]
      rw [if_neg (not_lt.mpr hle)]
    exact ⟨by rw [hcheck], by rw [hcheck]⟩

/-- C9 witness: at 1000s past a 900s timeout the check logs out; at 100s the
same user is returned and the activity timestamp refreshed. -/
theorem session_timeout_enforced_witness :
    (AuthService.check_session_timeout 900 ssAdmin 1000).1 = true
    ∧ AuthService.get_current_user 900 ssAdmin 100
        = (some (UserM.adminUser "iroils"), { ssAdmin with last_activity := some 100 }) :=
  ⟨((session_timeout_enforced 900 ssAdmin 1000 0 rfl).1 (by norm_num)).1,
   ((session_timeout_enforced 900 ssAdmin 100 0 rfl).2.1 (by norm_num)).2.2.1 "iroils"
      rfl rfl rfl (by decide)⟩

/-- On a normalized row, the read-side key match is raw-key equality with the
cleaned query key. -/
theorem rawKey_of_match {r : EvalRow} (hr : cleanInst r.institution = r.institution)
    {i v n : String} (h : evalKeyMatch r i v n = true) :
    rawEvalKey r = (cleanInst i, v, n) := by
  unfold evalKeyMatch at h
  rw [Bool.and_eq_true, Bool.and_eq_true, beq_iff_eq, beq_iff_eq, beq_iff_eq] at h
  unfold rawEvalKey
  rw [← hr, h.1.1, h.1.2, h.2]

/-- Pointwise: on canonical rows and a canonical write, the read-side key
match coincides with raw-key equality against the inserted row. -/
theorem match_eq_rawbeq {r : EvalRow} (hr : cleanInst r.institution = r.institution)
    (e : EvalRow) (hc : canonicalInst e.institution) :
    evalKeyMatch r e.institution e.evaluator e.entry_number
      = (rawEvalKey r == rawEvalKey { e with institution := toLowerStr e.institution }) := by
  unfold evalKeyMatch rawEvalKey
  rw [hr, hc.1, hc.2]
  show _ = ((r.institution == e.institution) && ((r.evaluator == e.evaluator)
    && (r.entry_number == e.entry_number)))
  rw [Bool.and_assoc]

/-- `find?` only depends on the pointwise values of its predicate. -/
theorem find?_congr_mem {α : Type} {p q : α → Bool} {l : List α}
    (h : ∀ x ∈ l, p x = q x) : l.find? p = l.find? q := by
  induction l with
  | nil => rfl
  | cons a as ih =>
    have ha := h a (List.mem_cons_self a as)
    cases hp : p a with
    | true =>
      rw [List.find?_cons_of_pos _ hp, List.find?_cons_of_pos _ (ha ▸ hp)]
    | false =>
      rw [List.find?_cons_of_neg _ (by simp [hp]), List.find?_cons_of_neg _ (by simp [← ha, hp])]
      exact ih (fun x hx => h x (List.mem_cons_of_mem a hx))

/-- At most one stored row matches any read key on a well-formed table. -/
theorem filter_keymatch_le_one {l : List EvalRow} (hwf : EvalTableWf l) (i v n : String) :
    (l.filter (fun r => evalKeyMatch r i v n)).length ≤ 1 := by
  obtain ⟨hcanon, hpw⟩ := hwf
  induction l with
  | nil => simp
  | cons a as ih =>
    obtain ⟨hpa, hpw'⟩ := List.pairwise_cons.mp hpw
    have hcanon' : ∀ r ∈ as, cleanInst r.institution = r.institution :=
      fun r hr => hcanon r (List.mem_cons_of_mem a hr)
    by_cases hma : evalKeyMatch a i v n = true
    · rw [List.filter_cons, if_pos hma]
      have hnil : as.filter (fun r => evalKeyMatch r i v n) = [] := by
        rw [List.filter_eq_nil_iff]
        intro r hr hmr
        exact hpa r hr (by rw [rawKey_of_match (hcanon a (List.mem_cons_self a as)) hma,
          rawKey_of_match (hcanon' r hr) hmr])
      rw [hnil]
      simp
    · rw [List.filter_cons, if_neg hma]
      exact ih hcanon' hpw'

/-- `save_evaluation` with a canonical institution preserves table
well-formedness. -/
theorem EvalTableWf_save {l : List EvalRow} (hwf : EvalTableWf l) (e : EvalRow)
    (hc : canonicalInst e.institution) : EvalTableWf (save_evaluation l e).2 := by
  obtain ⟨hcanon, hpw⟩ := hwf
  show EvalTableWf (upsertEval l _)
  unfold upsertEval
  split
  · constructor
    · intro r hr
      obtain ⟨x, hx, hfx⟩ := List.mem_map.mp hr
      rw [← hfx]
      split <;> exact hcanon x hx
    · rw [List.pairwise_map]
      refine hpw.imp ?_
      intro a b hab
      have hka : ∀ x : EvalRow, rawEvalKey (if rawEvalKey x == rawEvalKey
          { e with institution := toLowerStr e.institution } then
          { x with summary_score := e.summary_score, tag_score := e.tag_score,
                   feedback := e.feedback } else x) = rawEvalKey x := by
        intro x
        split <;> rfl
      rw [hka a, hka b]
      exact hab
  · next hany =>
    constructor
    · intro r hr
      rcases List.mem_append.mp hr with h | h
      · exact hcanon r h
      · rw [List.mem_singleton.mp h]
        show cleanInst (toLowerStr e.institution) = toLowerStr e.institution
        rw [hc.2, hc.1]
    · rw [List.pairwise_append]
      refine ⟨hpw, List.pairwise_singleton _ _, ?_⟩
      intro a ha b hb
      rw [List.mem_singleton.mp hb]
      intro hk
      apply hany
      exact List.any_eq_true.mpr ⟨a, ha, by simp [hk]⟩

/-- Every reachable evaluations table is well-formed. -/
theorem EvalsReachable_wf {l : List EvalRow} (h : EvalsReachable l) : EvalTableWf l := by
  induction h with
  | init => exact ⟨by simp, List.Pairwise.nil⟩
  | save l e _ hc ih => exact EvalTableWf_save ih e hc

/-- `upsertEval` of the lowered row, spelled with `overwriteScores`. -/
theorem upsertEval_loweredRow (l : List EvalRow) (e : EvalRow) :
    upsertEval l (loweredRow e)
      = if l.any (fun r => rawEvalKey r == rawEvalKey (loweredRow e)) then
          l.map (fun r => if rawEvalKey r == rawEvalKey (loweredRow e) then
            overwriteScores e r else r)
        else l ++ [loweredRow e] := rfl

/-- `save_evaluation` unfolded. -/
theorem save_evaluation_eq (l : List EvalRow) (e : EvalRow) :
    save_evaluation l e
      = ((get_evaluation l e.institution e.evaluator e.entry_number).isNone,
         upsertEval l (loweredRow e)) := rfl

/-- C3 amended. -/
theorem save_evaluation_upserts (l : List EvalRow) (hreach : EvalsReachable l)
    (e : EvalRow) (hc : canonicalInst e.institution) :
    (∀ i v n, ((save_evaluation l e).2.filter (fun r => evalKeyMatch r i v n)).length ≤ 1)
    ∧ ((save_evaluation l e).1 = true
        ↔ get_evaluation l e.institution e.evaluator e.entry_number = none)
    ∧ get_evaluation (save_evaluation l e).2 e.institution e.evaluator e.entry_number
        = some (loweredRow e)
    ∧ ((save_evaluation l e).1 = false → (save_evaluation l e).2.length = l.length)
    ∧ ((save_evaluation l e).1 = true → (save_evaluation l e).2.length = l.length + 1) := by
  obtain ⟨hcanon, hpw⟩ := EvalsReachable_wf hreach
  have hpt : ∀ r ∈ l, evalKeyMatch r e.institution e.evaluator e.entry_number
      = (rawEvalKey r == rawEvalKey (loweredRow e)) :=
    fun r hr => match_eq_rawbeq (hcanon r hr) e hc
  have hget : get_evaluation l e.institution e.evaluator e.entry_number
      = l.find? (fun r => rawEvalKey r == rawEvalKey (loweredRow e)) :=
    find?_congr_mem hpt
  have hfst : (save_evaluation l e).1
      = (get_evaluation l e.institution e.evaluator e.entry_number).isNone := rfl
  have hsnd : (save_evaluation l e).2 = upsertEval l (loweredRow e) := rfl
  refine ⟨fun i v n => filter_keymatch_le_one (EvalTableWf_save ⟨hcanon, hpw⟩ e hc) i v n,
    by rw [hfst]; exact Option.isNone_iff_eq_none, ?_, ?_, ?_⟩
  · cases hfind : l.find? (fun r => rawEvalKey r == rawEvalKey (loweredRow e)) with
    | none =>
      have hany : (l.any (fun r => rawEvalKey r == rawEvalKey (loweredRow e))) = false := by
        rw [Bool.eq_false_iff]
        intro hx
        obtain ⟨x, hx1, hx2⟩ := List.any_eq_true.mp hx
        exact absurd hx2 (by simpa using List.find?_eq_none.mp hfind x hx1)
      have hres : (save_evaluation l e).2 = l ++ [loweredRow e] := by
        rw [hsnd, upsertEval_loweredRow, if_neg (by rw [hany]; exact Bool.false_ne_true)]
      rw [hres]
      unfold get_evaluation
      rw [List.find?_append, find?_congr_mem hpt, hfind, Option.none_or]
      have hprow : evalKeyMatch (loweredRow e) e.institution e.evaluator e.entry_number
          = true := by
        simp [evalKeyMatch, loweredRow, hc.2]
      simp only [List.find?_cons, hprow]
    | some r0 =>
      have hk : rawEvalKey r0 = rawEvalKey (loweredRow e) := by
        have := List.find?_some hfind
        rwa [beq_iff_eq] at this
      have hany : (l.any (fun r => rawEvalKey r == rawEvalKey (loweredRow e))) = true :=
        List.any_eq_true.mpr ⟨r0, List.mem_of_find?_eq_some hfind,
          by have h2 := List.find?_some hfind; exact h2⟩
      have hres : (save_evaluation l e).2 = l.map (fun r =>
          if rawEvalKey r == rawEvalKey (loweredRow e) then overwriteScores e r else r) := by
        rw [hsnd, upsertEval_loweredRow, if_pos hany]
      rw [hres]
      unfold get_evaluation
      rw [List.find?_map]
      have hcomp : ((fun r => evalKeyMatch r e.institution e.evaluator e.entry_number)
          ∘ (fun r => if rawEvalKey r == rawEvalKey (loweredRow e) then
              overwriteScores e r else r))
          = fun r => evalKeyMatch r e.institution e.evaluator e.entry_number := by
        funext r
        show evalKeyMatch (if rawEvalKey r == rawEvalKey (loweredRow e) then
          overwriteScores e r else r) e.institution e.evaluator e.entry_number
          = evalKeyMatch r e.institution e.evaluator e.entry_number
        split <;> rfl
      rw [hcomp, find?_congr_mem hpt, hfind]
      have hcond : (rawEvalKey r0 == rawEvalKey (loweredRow e)) = true := by simp [hk]
      simp only [Option.map_some', hcond, if_true]
      obtain ⟨ri, rv, rn, rs, rt, rf⟩ := r0
      unfold rawEvalKey loweredRow at hk
      simp only [Prod.mk.injEq] at hk
      simp [overwriteScores, loweredRow, hk.1, hk.2.1, hk.2.2]
  · intro hf
    rw [hfst] at hf
    cases hfind : l.find? (fun r => rawEvalKey r == rawEvalKey (loweredRow e)) with
    | none =>
      rw [hget, hfind] at hf
      exact absurd hf (by simp)
    | some r0 =>
      have hany : (l.any (fun r => rawEvalKey r == rawEvalKey (loweredRow e))) = true :=
        List.any_eq_true.mpr ⟨r0, List.mem_of_find?_eq_some hfind,
          by have h2 := List.find?_some hfind; exact h2⟩
      have hres : (save_evaluation l e).2 = l.map (fun r =>
          if rawEvalKey r == rawEvalKey (loweredRow e) then overwriteScores e r else r) := by
        rw [hsnd, upsertEval_loweredRow, if_pos hany]
      rw [hres, List.length_map]
  · intro hf
    rw [hfst, Option.isNone_iff_eq_none, hget] at hf
    have hany : (l.any (fun r => rawEvalKey r == rawEvalKey (loweredRow e))) = false := by
      rw [Bool.eq_false_iff]
      intro hx
      obtain ⟨x, hx1, hx2⟩ := List.any_eq_true.mp hx
      exact absurd hx2 (by simpa using List.find?_eq_none.mp hf x hx1)
    have hres : (save_evaluation l e).2 = l ++ [loweredRow e] := by
      rw [hsnd, upsertEval_loweredRow, if_neg (by rw [hany]; exact Bool.false_ne_true)]
    rw [hres]
    simp

/-- C3 counterexample: saving under `'uab '` (trailing space) and then
`'uab'` for the same evaluator and entry returns `False` although no row with
the second call's stored key existed, and leaves two records matching the one
read key. -/
theorem save_evaluation_upserts_counterexample :
    (save_evaluation (save_evaluation [] ⟨"uab ", "v", "1", 5, 5, "a"⟩).2
        ⟨"uab", "v", "1", 3, 3, "b"⟩).1 = false
    ∧ ((save_evaluation (save_evaluation [] ⟨"uab ", "v", "1", 5, 5, "a"⟩).2
        ⟨"uab", "v", "1", 3, 3, "b"⟩).2.filter
          (fun r => evalKeyMatch r "uab" "v" "1")).length = 2 :=
  ⟨by decide, by decide⟩

/-- C3 witness. -/
theorem save_evaluation_upserts_witness :
    get_evaluation (save_evaluation [] ⟨"uab", "v", "1", 5, 4, "f"⟩).2 "uab" "v" "1"
      = some (loweredRow ⟨"uab", "v", "1", 5, 4, "f"⟩) :=
  (save_evaluation_upserts [] EvalsReachable.init ⟨"uab", "v", "1", 5, 4, "f"⟩
    (by decide)).2.2.1

/-- `update_institution_stats` with a canonical row preserves stats-table
well-formedness. -/
theorem StatsTableWf_update {stats : List InstitutionStats} (hwf : StatsTableWf stats)
    (s' : InstitutionStats) (hcan : cleanInst s'.institution = s'.institution)
    (hlow : toLowerStr s'.institution = s'.institution) :
    StatsTableWf (update_institution_stats stats s') := by
  obtain ⟨hcanon, hpw⟩ := hwf
  unfold update_institution_stats
  rw [hlow]
  split
  · constructor
    · intro r hr
      obtain ⟨x, hx, hfx⟩ := List.mem_map.mp hr
      rw [← hfx]
      split <;> exact hcanon x hx
    · rw [List.pairwise_map]
      refine hpw.imp ?_
      intro a b hab
      have hka : ∀ x : InstitutionStats, (if (x.institution == s'.institution) = true then
          { x with cumulative_summary := s'.cumulative_summary,
                   cumulative_tag := s'.cumulative_tag,
                   total_evaluations := s'.total_evaluations } else x).institution
          = x.institution := by
        intro x
        split <;> rfl
      rw [hka a, hka b]
      exact hab
  · next hany =>
    constructor
    · intro r hr
      rcases List.mem_append.mp hr with h | h
      · exact hcanon r h
      · rw [List.mem_singleton.mp h]
        exact hcan
    · rw [List.pairwise_append]
      refine ⟨hpw, List.pairwise_singleton _ _, ?_⟩
      intro a ha b hb
      rw [List.mem_singleton.mp hb]
      intro hk
      apply hany
      exact List.any_eq_true.mpr ⟨a, ha, by simp [hk]⟩

/-- Lookup after a stats upsert: the written institution reads back the
written triple (under any query cleaning to it); other institutions are
untouched. -/
theorem get_stats_update {stats : List InstitutionStats} (hwf : StatsTableWf stats)
    (s' : InstitutionStats) (hcan : cleanInst s'.institution = s'.institution)
    (hlow : toLowerStr s'.institution = s'.institution) (i : String) :
    get_institution_stats (update_institution_stats stats s') i
      = if cleanInst i = s'.institution
        then { s' with institution := cleanInst i }
        else get_institution_stats stats i := by
  obtain ⟨hcanon, hpw⟩ := hwf
  have hmem : ∀ r ∈ stats, (cleanInst r.institution == cleanInst i)
      = (r.institution == cleanInst i) :=
    fun r hr => by rw [hcanon r hr]
  unfold update_institution_stats
  rw [hlow]
  split
  · next hany =>
    unfold get_institution_stats
    rw [List.find?_map]
    have hcomp : ((fun r : InstitutionStats => cleanInst r.institution == cleanInst i)
        ∘ (fun r : InstitutionStats => if r.institution == s'.institution then
            { r with cumulative_summary := s'.cumulative_summary,
                     cumulative_tag := s'.cumulative_tag,
                     total_evaluations := s'.total_evaluations } else r))
        = fun r : InstitutionStats => cleanInst r.institution == cleanInst i := by
      funext r
      show (cleanInst (if r.institution == s'.institution then
        { r with cumulative_summary := s'.cumulative_summary,
                 cumulative_tag := s'.cumulative_tag,
                 total_evaluations := s'.total_evaluations } else r).institution
        == cleanInst i) = (cleanInst r.institution == cleanInst i)
      split <;> rfl
    rw [hcomp, find?_congr_mem hmem]
    by_cases hq : cleanInst i = s'.institution
    · rw [if_pos hq]
      obtain ⟨x, hx, hpx⟩ := List.any_eq_true.mp hany
      have hfsome : (stats.find? (fun r => r.institution == cleanInst i)).isSome = true := by
        rw [List.find?_isSome]
        refine ⟨x, hx, ?_⟩
        show (x.institution == cleanInst i) = true
        rw [hq]
        exact hpx
      cases hfind : stats.find? (fun r => r.institution == cleanInst i) with
      | none => rw [hfind] at hfsome; cases hfsome
      | some r1 =>
        have hr1 : (r1.institution == s'.institution) = true := by
          have h2 := List.find?_some hfind
          rwa [hq] at h2
        simp only [Option.map_some', hr1, if_true]
    · rw [if_neg hq]
      cases hfind : stats.find? (fun r => r.institution == cleanInst i) with
      | none => simp
      | some r1 =>
        have hr1 : (r1.institution == cleanInst i) = true := by
          have h2 := List.find?_some hfind
          exact h2
        have hne : (r1.institution == s'.institution) = false := by
          rw [beq_iff_eq] at hr1
          rw [Bool.eq_false_iff]
          intro hx
          rw [beq_iff_eq] at hx
          exact hq (by rw [← hr1, hx])
        have hne2 : ¬ (r1.institution = s'.institution) := by simpa using hne
        simp [hne2]
  · next hany =>
    unfold get_institution_stats
    rw [List.find?_append, find?_congr_mem hmem]
    by_cases hq : cleanInst i = s'.institution
    · rw [if_pos hq]
      have hnone : stats.find? (fun r => r.institution == cleanInst i) = none := by
        rw [List.find?_eq_none]
        intro x hx hpx
        apply hany
        refine List.any_eq_true.mpr ⟨x, hx, ?_⟩
        show (x.institution == s'.institution) = true
        rw [← hq]
        exact hpx
      rw [hnone, Option.none_or]
      have hps : (cleanInst s'.institution == cleanInst i) = true := by
        rw [hcan, hq]
        simp
      simp only [List.find?_cons, hps]
    · rw [if_neg hq]
      have hps : (cleanInst s'.institution == cleanInst i) = false := by
        rw [hcan, Bool.eq_false_iff]
        intro hx
        rw [beq_iff_eq] at hx
        exact hq hx.symm
      simp only [List.find?_cons, hps, List.find?_nil, Option.or_none]

/-! ### Aggregate lemmas -/

/-- Appending a row extends the institution's row set by that row when it
matches. -/
theorem evalsFor_append (l : List EvalRow) (r : EvalRow) (i : String) :
    evalsFor (l ++ [r]) i
      = evalsFor l i ++ (if cleanInst r.institution == cleanInst i then [r] else []) := by
  cases h : cleanInst r.institution == cleanInst i <;>
    simp [evalsFor, List.filter_append, List.filter_cons, h]

/-- Updating the single row carrying a raw key shifts a mapped sum by exactly
the change at that row. -/
theorem sum_map_update (L : List EvalRow) (r0 : EvalRow) (g : EvalRow → EvalRow)
    (f : EvalRow → ℚ)
    (hpw : L.Pairwise (fun a b => rawEvalKey a ≠ rawEvalKey b)) (h0 : r0 ∈ L) :
    ((L.map (fun r => if rawEvalKey r == rawEvalKey r0 then g r else r)).map f).sum
      = (L.map f).sum - f r0 + f (g r0) := by
  induction L with
  | nil => cases h0
  | cons a as ih =>
    obtain ⟨hpa, hpw2⟩ := List.pairwise_cons.mp hpw
    by_cases hk : (rawEvalKey a == rawEvalKey r0) = true
    · have hk2 : rawEvalKey a = rawEvalKey r0 := by rwa [beq_iff_eq] at hk
      have hr0a : r0 = a := by
        rcases List.mem_cons.mp h0 with h | h
        · exact h
        · exact absurd hk2 (hpa r0 h)
      subst hr0a
      have htail : as.map (fun r => if rawEvalKey r == rawEvalKey r0 then g r else r)
          = as := by
        have hid : ∀ r ∈ as, (if rawEvalKey r == rawEvalKey r0 then g r else r) = r := by
          intro r hr
          rw [if_neg]
          intro hx
          rw [beq_iff_eq] at hx
          exact (hpa r hr) hx.symm
        calc as.map (fun r => if rawEvalKey r == rawEvalKey r0 then g r else r)
            = as.map id := List.map_congr_left hid
          _ = as := List.map_id as
      simp only [List.map_cons, hk, if_true, htail, List.sum_cons]
      ring
    · have hr0 : r0 ∈ as := by
        rcases List.mem_cons.mp h0 with h | h
        · subst h
          exact absurd (by simp) hk
        · exact h
      simp only [List.map_cons, hk, Bool.false_eq_true, if_false, List.sum_cons]
      rw [ih hpw2 hr0]
      ring

/-- A keyed update touching no row of the list is the identity. -/
theorem map_update_id (L : List EvalRow) (k : String × String × String)
    (g : EvalRow → EvalRow) (h : ∀ r ∈ L, rawEvalKey r ≠ k) :
    L.map (fun r => if rawEvalKey r == k then g r else r) = L := by
  have hid : ∀ r ∈ L, (if rawEvalKey r == k then g r else r) = r := by
    intro r hr
    rw [if_neg]
    intro hx
    rw [beq_iff_eq] at hx
    exact (h r hr) hx
  calc L.map (fun r => if rawEvalKey r == k then g r else r)
      = L.map id := List.map_congr_left hid
    _ = L := List.map_id L

/-- `find?` commutes with a filter whose kept set contains every match. -/
theorem find?_filter_keep {α : Type} (l : List α) (p keep : α → Bool)
    (h : ∀ x, p x = true → keep x = true) :
    (l.filter keep).find? p = l.find? p := by
  induction l with
  | nil => rfl
  | cons a as ih =>
    by_cases hk : keep a = true
    · rw [List.filter_cons, if_pos hk]
      cases hp : p a
      · simp only [List.find?_cons, hp]
        exact ih
      · simp only [List.find?_cons, hp]
    · have hp : p a = false := by
        cases hpa : p a
        · rfl
        · exact absurd (h a hpa) hk
      rw [List.filter_cons, if_neg hk]
      simp only [List.find?_cons, hp]
      exact ih

/-- `statsInvariant` as a triple equation. -/
theorem statsInvariant_iff_triple (db : DBState) (i : String) :
    statsInvariant db i
      ↔ statsTriple (get_institution_stats db.stats i) = aggTriple db.evaluations i := by
  unfold statsInvariant statsTriple aggTriple
  rw [Prod.mk.injEq, Prod.mk.injEq]

/-- The value columns read back for a query institution. -/
theorem statsTriple_get (stats : List InstitutionStats) (i : String) :
    statsTriple (get_institution_stats stats i)
      = match stats.find? (fun r => cleanInst r.institution == cleanInst i) with
        | some r => statsTriple r
        | none => (0, 0, 0) := by
  unfold get_institution_stats
  cases hfind : stats.find? (fun r => cleanInst r.institution == cleanInst i) <;> rfl

/-- Two queries cleaning to the same institution read the same value columns. -/
theorem statsTriple_get_congr (stats : List InstitutionStats) {i j : String}
    (h : cleanInst i = cleanInst j) :
    statsTriple (get_institution_stats stats i)
      = statsTriple (get_institution_stats stats j) := by
  rw [statsTriple_get, statsTriple_get, h]

/-- The institution's rows of a mapped table, when the map only rewrites
score fields. -/
theorem evalsFor_map_overwrite (l : List EvalRow) (e : EvalRow) (i : String) :
    evalsFor (l.map (fun r => if rawEvalKey r == rawEvalKey (loweredRow e) then
        overwriteScores e r else r)) i
      = (evalsFor l i).map (fun r => if rawEvalKey r == rawEvalKey (loweredRow e) then
          overwriteScores e r else r) := by
  unfold evalsFor
  rw [List.filter_map]
  congr 1
  refine List.filter_congr ?_
  intro r hr
  show (cleanInst (if rawEvalKey r == rawEvalKey (loweredRow e) then
      overwriteScores e r else r).institution == cleanInst i)
    = (cleanInst r.institution == cleanInst i)
  split <;> rfl

/-- Sum components over an appended row. -/
theorem sumSummary_append (l : List EvalRow) (r : EvalRow) (i : String) :
    sumSummary (l ++ [r]) i
      = sumSummary l i + (if cleanInst r.institution == cleanInst i
          then (r.summary_score : ℚ) else 0) := by
  cases h : cleanInst r.institution == cleanInst i <;>
    simp [sumSummary, evalsFor_append, h]

/-- Sum components over an appended row (tag). -/
theorem sumTag_append (l : List EvalRow) (r : EvalRow) (i : String) :
    sumTag (l ++ [r]) i
      = sumTag l i + (if cleanInst r.institution == cleanInst i
          then (r.tag_score : ℚ) else 0) := by
  cases h : cleanInst r.institution == cleanInst i <;>
    simp [sumTag, evalsFor_append, h]

/-- Row count over an appended row. -/
theorem countEvals_append (l : List EvalRow) (r : EvalRow) (i : String) :
    countEvals (l ++ [r]) i
      = countEvals l i + (if cleanInst r.institution == cleanInst i then 1 else 0) := by
  cases h : cleanInst r.institution == cleanInst i <;>
    simp [countEvals, evalsFor_append, h]

/-! ### The submit flow, unfolded -/

/-- The submit flow leaves the entries table alone. -/
theorem submitEvaluation_entries (db : DBState) (e : EvalRow) :
    (submitEvaluation db e).entries = db.entries := rfl

/-- The submit flow writes the evaluations table through `save_evaluation`. -/
theorem submitEvaluation_evaluations (db : DBState) (e : EvalRow) :
    (submitEvaluation db e).evaluations = (save_evaluation db.evaluations e).2 := rfl

/-- The submit flow adjusts the stats with `is_new` and the old scores read
from the existing evaluation. -/
theorem submitEvaluation_stats (db : DBState) (e : EvalRow) :
    (submitEvaluation db e).stats
      = add_evaluation_to_stats db.stats e.institution
          (e.summary_score : ℚ) (e.tag_score : ℚ)
          (get_evaluation db.evaluations e.institution e.evaluator e.entry_number).isNone
          (match get_evaluation db.evaluations e.institution e.evaluator e.entry_number with
            | some r => (r.summary_score : ℚ) | none => 0)
          (match get_evaluation db.evaluations e.institution e.evaluator e.entry_number with
            | some r => (r.tag_score : ℚ) | none => 0) := rfl

/-- `add_evaluation_to_stats`, unfolded to a single stats upsert. -/
theorem add_evaluation_to_stats_eq (stats : List InstitutionStats) (inst : String)
    (s t : ℚ) (b : Bool) (os ot : ℚ) :
    add_evaluation_to_stats stats inst s t b os ot
      = update_institution_stats stats
          (if b then (get_institution_stats stats (cleanInst inst)).add_evaluation s t
           else (get_institution_stats stats (cleanInst inst)).update_evaluation os s ot t) :=
  rfl

/-- The institution recorded on a stats read is the cleaned query. -/
theorem get_stats_institution (stats : List InstitutionStats) (i : String) :
    (get_institution_stats stats i).institution = cleanInst i := by
  unfold get_institution_stats
  cases hfind : stats.find? (fun r => cleanInst r.institution == cleanInst i) <;> rfl

/-- When no evaluation matched the read key, the save appends the lowered
row. -/
theorem save_result_of_get_none {l : List EvalRow}
    (hcanon : ∀ r ∈ l, cleanInst r.institution = r.institution) {e : EvalRow}
    (hc : canonicalInst e.institution)
    (hE : get_evaluation l e.institution e.evaluator e.entry_number = none) :
    (save_evaluation l e).2 = l ++ [loweredRow e] := by
  have hget : get_evaluation l e.institution e.evaluator e.entry_number
      = l.find? (fun r => rawEvalKey r == rawEvalKey (loweredRow e)) :=
    find?_congr_mem (fun r hr => match_eq_rawbeq (hcanon r hr) e hc)
  rw [hget] at hE
  have hany : (l.any (fun r => rawEvalKey r == rawEvalKey (loweredRow e))) = false := by
    rw [Bool.eq_false_iff]
    intro hx
    obtain ⟨x, hx1, hx2⟩ := List.any_eq_true.mp hx
    exact absurd hx2 (by simpa using List.find?_eq_none.mp hE x hx1)
  show upsertEval l (loweredRow e) = _
  rw [upsertEval_loweredRow, if_neg (by rw [hany]; exact Bool.false_ne_true)]

/-- When a row matched the read key, the save rewrites that raw key's row. -/
theorem save_result_of_get_some {l : List EvalRow}
    (hcanon : ∀ r ∈ l, cleanInst r.institution = r.institution) {e : EvalRow}
    (hc : canonicalInst e.institution) {r0 : EvalRow}
    (hE : get_evaluation l e.institution e.evaluator e.entry_number = some r0) :
    (save_evaluation l e).2 = l.map (fun r =>
        if rawEvalKey r == rawEvalKey (loweredRow e) then overwriteScores e r else r)
    ∧ r0 ∈ l ∧ rawEvalKey r0 = rawEvalKey (loweredRow e) := by
  have hget : get_evaluation l e.institution e.evaluator e.entry_number
      = l.find? (fun r => rawEvalKey r == rawEvalKey (loweredRow e)) :=
    find?_congr_mem (fun r hr => match_eq_rawbeq (hcanon r hr) e hc)
  rw [hget] at hE
  have hk : rawEvalKey r0 = rawEvalKey (loweredRow e) := by
    have h2 := List.find?_some hE
    rwa [beq_iff_eq] at h2
  have hany : (l.any (fun r => rawEvalKey r == rawEvalKey (loweredRow e))) = true :=
    List.any_eq_true.mpr ⟨r0, List.mem_of_find?_eq_some hE,
      by have h2 := List.find?_some hE; exact h2⟩
  refine ⟨?_, List.mem_of_find?_eq_some hE, hk⟩
  show upsertEval l (loweredRow e) = _
  rw [upsertEval_loweredRow, if_pos hany]

/-- The empty database satisfies the invariant. -/
theorem DBInv_empty : DBInv DBState.empty := by
  refine ⟨⟨fun r hr => absurd hr (List.not_mem_nil r), List.Pairwise.nil⟩,
    ⟨fun r hr => absurd hr (List.not_mem_nil r), List.Pairwise.nil⟩, fun i => ?_⟩
  rw [statsInvariant_iff_triple]
  rfl

/-- An evaluation write through the submit flow preserves the invariant when
the supplied institution string is canonical. -/
theorem DBInv_submit (db : DBState) (hinv : DBInv db) (e : EvalRow)
    (hc : canonicalInst e.institution) : DBInv (submitEvaluation db e) := by
  obtain ⟨hewf, hswf, hstats⟩ := hinv
  have hcanon := hewf.1
  have hpw := hewf.2
  have hstinst : (get_institution_stats db.stats (cleanInst e.institution)).institution
      = e.institution := by
    rw [get_stats_institution, hc.1]
    exact hc.1
  cases hE : get_evaluation db.evaluations e.institution e.evaluator e.entry_number with
  | none =>
    have hres : (submitEvaluation db e).evaluations = db.evaluations ++ [loweredRow e] := by
      rw [submitEvaluation_evaluations]
      exact save_result_of_get_none hcanon hc hE
    have hstats' : (submitEvaluation db e).stats
        = update_institution_stats db.stats
            ((get_institution_stats db.stats (cleanInst e.institution)).add_evaluation
              (e.summary_score : ℚ) (e.tag_score : ℚ)) := by
      rw [submitEvaluation_stats, add_evaluation_to_stats_eq]
      simp only [hE, Option.isNone_none, if_true]
    have hsi : ((get_institution_stats db.stats (cleanInst e.institution)).add_evaluation
        (e.summary_score : ℚ) (e.tag_score : ℚ)).institution = e.institution := hstinst
    have hcanE : cleanInst ((get_institution_stats db.stats
        (cleanInst e.institution)).add_evaluation (e.summary_score : ℚ)
          (e.tag_score : ℚ)).institution
        = ((get_institution_stats db.stats (cleanInst e.institution)).add_evaluation
            (e.summary_score : ℚ) (e.tag_score : ℚ)).institution := by
      rw [hsi]
      exact hc.1
    have hlowE : toLowerStr ((get_institution_stats db.stats
        (cleanInst e.institution)).add_evaluation (e.summary_score : ℚ)
          (e.tag_score : ℚ)).institution
        = ((get_institution_stats db.stats (cleanInst e.institution)).add_evaluation
            (e.summary_score : ℚ) (e.tag_score : ℚ)).institution := by
      rw [hsi]
      exact hc.2
    refine ⟨EvalTableWf_save ⟨hcanon, hpw⟩ e hc, ?_, ?_⟩
    · rw [hstats']
      exact StatsTableWf_update hswf _ hcanE hlowE
    · intro i
      rw [statsInvariant_iff_triple, hstats', get_stats_update hswf _ hcanE hlowE i, hsi]
      by_cases hq : cleanInst i = e.institution
      · rw [if_pos hq]
        have hstq : statsTriple (get_institution_stats db.stats (cleanInst e.institution))
            = aggTriple db.evaluations i := by
          rw [statsTriple_get_congr db.stats
            (show cleanInst (cleanInst e.institution) = cleanInst i by
              rw [hc.1, hq]
              exact hc.1)]
          exact (statsInvariant_iff_triple db i).mp (hstats i)
        have e1 : (get_institution_stats db.stats
            (cleanInst e.institution)).cumulative_summary
            = sumSummary db.evaluations i := congrArg Prod.fst hstq
        have e2 : (get_institution_stats db.stats (cleanInst e.institution)).cumulative_tag
            = sumTag db.evaluations i := congrArg (fun p : ℚ × ℚ × Int => p.2.1) hstq
        have e3 : (get_institution_stats db.stats
            (cleanInst e.institution)).total_evaluations
            = countEvals db.evaluations i := congrArg (fun p : ℚ × ℚ × Int => p.2.2) hstq
        have hflag : (cleanInst (loweredRow e).institution == cleanInst i) = true := by
          show (cleanInst (toLowerStr e.institution) == cleanInst i) = true
          rw [hc.2, hc.1, hq]
          simp
        rw [hres]
        show ((get_institution_stats db.stats (cleanInst e.institution)).cumulative_summary
              + (e.summary_score : ℚ),
            (get_institution_stats db.stats (cleanInst e.institution)).cumulative_tag
              + (e.tag_score : ℚ),
            (get_institution_stats db.stats (cleanInst e.institution)).total_evaluations + 1)
          = aggTriple (db.evaluations ++ [loweredRow e]) i
        unfold aggTriple
        rw [sumSummary_append, sumTag_append, countEvals_append, if_pos hflag,
          if_pos hflag, if_pos hflag]
        rw [Prod.mk.injEq, Prod.mk.injEq]
        refine ⟨?_, ?_, ?_⟩
        · rw [e1]
          rfl
        · rw [e2]
          rfl
        · rw [e3]
      · rw [if_neg hq]
        have hflag : (cleanInst (loweredRow e).institution == cleanInst i) = false := by
          show (cleanInst (toLowerStr e.institution) == cleanInst i) = false
          rw [hc.2, hc.1, Bool.eq_false_iff]
          intro hx
          rw [beq_iff_eq] at hx
          exact hq hx.symm
        rw [hres]
        unfold aggTriple
        rw [sumSummary_append, sumTag_append, countEvals_append,
          if_neg (by rw [hflag]; exact Bool.false_ne_true),
          if_neg (by rw [hflag]; exact Bool.false_ne_true),
          if_neg (by rw [hflag]; exact Bool.false_ne_true)]
        have hIH := (statsInvariant_iff_triple db i).mp (hstats i)
        rw [hIH]
        unfold aggTriple
        simp
  | some r0 =>
    obtain ⟨hres0, hmem0, hk⟩ := save_result_of_get_some hcanon hc hE
    have hres : (submitEvaluation db e).evaluations
        = db.evaluations.map (fun r => if rawEvalKey r == rawEvalKey (loweredRow e) then
            overwriteScores e r else r) := by
      rw [submitEvaluation_evaluations]
      exact hres0
    have hstats' : (submitEvaluation db e).stats
        = update_institution_stats db.stats
            ((get_institution_stats db.stats (cleanInst e.institution)).update_evaluation
              (r0.summary_score : ℚ) (e.summary_score : ℚ)
              (r0.tag_score : ℚ) (e.tag_score : ℚ)) := by
      rw [submitEvaluation_stats, add_evaluation_to_stats_eq]
      simp only [hE, Option.isNone_some, Bool.false_eq_true, if_false]
    have hsi : ((get_institution_stats db.stats (cleanInst e.institution)).update_evaluation
        (r0.summary_score : ℚ) (e.summary_score : ℚ)
        (r0.tag_score : ℚ) (e.tag_score : ℚ)).institution = e.institution := hstinst
    have hcanE : cleanInst ((get_institution_stats db.stats
        (cleanInst e.institution)).update_evaluation (r0.summary_score : ℚ)
          (e.summary_score : ℚ) (r0.tag_score : ℚ) (e.tag_score : ℚ)).institution
        = ((get_institution_stats db.stats (cleanInst e.institution)).update_evaluation
            (r0.summary_score : ℚ) (e.summary_score : ℚ)
            (r0.tag_score : ℚ) (e.tag_score : ℚ)).institution := by
      rw [hsi]
      exact hc.1
    have hlowE : toLowerStr ((get_institution_stats db.stats
        (cleanInst e.institution)).update_evaluation (r0.summary_score : ℚ)
          (e.summary_score : ℚ) (r0.tag_score : ℚ) (e.tag_score : ℚ)).institution
        = ((get_institution_stats db.stats (cleanInst e.institution)).update_evaluation
            (r0.summary_score : ℚ) (e.summary_score : ℚ)
            (r0.tag_score : ℚ) (e.tag_score : ℚ)).institution := by
      rw [hsi]
      exact hc.2
    have hE2 : db.evaluations.find?
        (fun r => evalKeyMatch r e.institution e.evaluator e.entry_number) = some r0 := hE
    have hEp : evalKeyMatch r0 e.institution e.evaluator e.entry_number = true := by
      have h2 := List.find?_some hE2
      exact h2
    have hr0inst : r0.institution = e.institution := by
      have := congrArg Prod.fst (rawKey_of_match (hcanon r0 hmem0) hEp)
      show r0.institution = e.institution
      rw [show (rawEvalKey r0).1 = r0.institution from rfl] at this
      rw [this, hc.1]
    refine ⟨EvalTableWf_save ⟨hcanon, hpw⟩ e hc, ?_, ?_⟩
    · rw [hstats']
      exact StatsTableWf_update hswf _ hcanE hlowE
    · intro i
      rw [statsInvariant_iff_triple, hstats', get_stats_update hswf _ hcanE hlowE i, hsi]
      by_cases hq : cleanInst i = e.institution
      · rw [if_pos hq]
        have hpred : (cleanInst r0.institution == cleanInst i) = true := by
          rw [hcanon r0 hmem0, hr0inst, hq]
          simp
        have hpwf : (evalsFor db.evaluations i).Pairwise
            (fun a b => rawEvalKey a ≠ rawEvalKey b) :=
          List.Pairwise.sublist (List.filter_sublist db.evaluations) hpw
        have hmemf : r0 ∈ evalsFor db.evaluations i := List.mem_filter.mpr ⟨hmem0, hpred⟩
        have hS : sumSummary (submitEvaluation db e).evaluations i
            = sumSummary db.evaluations i - (r0.summary_score : ℚ) + (e.summary_score : ℚ) := by
          have hsum := sum_map_update (evalsFor db.evaluations i) r0 (overwriteScores e)
            (fun r => (r.summary_score : ℚ)) hpwf hmemf
          rw [hk] at hsum
          rw [hres]
          unfold sumSummary
          rw [evalsFor_map_overwrite]
          exact hsum
        have hT : sumTag (submitEvaluation db e).evaluations i
            = sumTag db.evaluations i - (r0.tag_score : ℚ) + (e.tag_score : ℚ) := by
          have hsum := sum_map_update (evalsFor db.evaluations i) r0 (overwriteScores e)
            (fun r => (r.tag_score : ℚ)) hpwf hmemf
          rw [hk] at hsum
          rw [hres]
          unfold sumTag
          rw [evalsFor_map_overwrite]
          exact hsum
        have hC : countEvals (submitEvaluation db e).evaluations i
            = countEvals db.evaluations i := by
          rw [hres]
          unfold countEvals
          rw [evalsFor_map_overwrite, List.length_map]
        have hstq : statsTriple (get_institution_stats db.stats (cleanInst e.institution))
            = aggTriple db.evaluations i := by
          rw [statsTriple_get_congr db.stats
            (show cleanInst (cleanInst e.institution) = cleanInst i by
              rw [hc.1, hq]
              exact hc.1)]
          exact (statsInvariant_iff_triple db i).mp (hstats i)
        have e1 : (get_institution_stats db.stats
            (cleanInst e.institution)).cumulative_summary
            = sumSummary db.evaluations i := congrArg Prod.fst hstq
        have e2 : (get_institution_stats db.stats (cleanInst e.institution)).cumulative_tag
            = sumTag db.evaluations i := congrArg (fun p : ℚ × ℚ × Int => p.2.1) hstq
        have e3 : (get_institution_stats db.stats
            (cleanInst e.institution)).total_evaluations
            = countEvals db.evaluations i := congrArg (fun p : ℚ × ℚ × Int => p.2.2) hstq
        show ((get_institution_stats db.stats (cleanInst e.institution)).cumulative_summary
              + ((e.summary_score : ℚ) - (r0.summary_score : ℚ)),
            (get_institution_stats db.stats (cleanInst e.institution)).cumulative_tag
              + ((e.tag_score : ℚ) - (r0.tag_score : ℚ)),
            (get_institution_stats db.stats (cleanInst e.institution)).total_evaluations)
          = aggTriple (submitEvaluation db e).evaluations i
        unfold aggTriple
        rw [hS, hT, hC, Prod.mk.injEq, Prod.mk.injEq]
        refine ⟨?_, ?_, ?_⟩
        · rw [e1]
          ring
        · rw [e2]
          ring
        · exact e3
      · rw [if_neg hq]
        have hid : evalsFor (submitEvaluation db e).evaluations i
            = evalsFor db.evaluations i := by
          rw [hres, evalsFor_map_overwrite]
          apply map_update_id
          intro r hr hx
          obtain ⟨hrl, hrp⟩ := List.mem_filter.mp hr
          have hinst : r.institution = cleanInst i := by
            rw [← hcanon r hrl]
            rwa [beq_iff_eq] at hrp
          have : r.institution = toLowerStr e.institution := congrArg Prod.fst hx
          rw [hc.2] at this
          exact hq (by rw [← hinst, this])
        have hagg : aggTriple (submitEvaluation db e).evaluations i
            = aggTriple db.evaluations i := by
          unfold aggTriple sumSummary sumTag countEvals
          rw [hid]
        rw [hagg]
        exact (statsInvariant_iff_triple db i).mp (hstats i)

/-- A full institution reset preserves the invariant (for any institution
argument). -/
theorem DBInv_reset (db : DBState) (hinv : DBInv db) (inst : String) :
    DBInv (reset_institution_data db inst) := by
  obtain ⟨⟨hcanonE, hpwE⟩, ⟨hcanonS, hpwS⟩, hstats⟩ := hinv
  have hEv : (reset_institution_data db inst).evaluations
      = db.evaluations.filter (fun r => !(cleanInst r.institution == cleanInst inst)) := rfl
  have hSt : (reset_institution_data db inst).stats
      = db.stats.filter (fun r => !(cleanInst r.institution == cleanInst inst)) := rfl
  refine ⟨⟨?_, ?_⟩, ⟨?_, ?_⟩, fun i => ?_⟩
  · intro r hr
    rw [hEv] at hr
    exact hcanonE r (List.mem_of_mem_filter hr)
  · rw [hEv]
    exact List.Pairwise.sublist (List.filter_sublist _) hpwE
  · intro r hr
    rw [hSt] at hr
    exact hcanonS r (List.mem_of_mem_filter hr)
  · rw [hSt]
    exact List.Pairwise.sublist (List.filter_sublist _) hpwS
  · rw [statsInvariant_iff_triple, statsTriple_get, hSt, hEv]
    by_cases hq : cleanInst i = cleanInst inst
    · have hnone : (db.stats.filter
          (fun r => !(cleanInst r.institution == cleanInst inst))).find?
            (fun r => cleanInst r.institution == cleanInst i) = none := by
        rw [List.find?_eq_none]
        intro x hx hp
        obtain ⟨hx1, hx2⟩ := List.mem_filter.mp hx
        rw [hq] at hp
        rw [hp] at hx2
        simp at hx2
      rw [hnone]
      have hagg : evalsFor (db.evaluations.filter
          (fun r => !(cleanInst r.institution == cleanInst inst))) i = [] := by
        unfold evalsFor
        rw [List.filter_filter, List.filter_eq_nil_iff]
        intro r hr hcond
        rw [Bool.and_eq_true] at hcond
        have hp := hcond.1
        have hkp := hcond.2
        rw [hq] at hp
        rw [hp] at hkp
        simp at hkp
      show ((0 : ℚ), (0 : ℚ), (0 : Int)) = aggTriple _ i
      unfold aggTriple sumSummary sumTag countEvals
      rw [hagg]
      rfl
    · have hfind : (db.stats.filter
          (fun r => !(cleanInst r.institution == cleanInst inst))).find?
            (fun r => cleanInst r.institution == cleanInst i)
          = db.stats.find? (fun r => cleanInst r.institution == cleanInst i) := by
        apply find?_filter_keep
        intro x hp
        cases hbc : (cleanInst x.institution == cleanInst inst)
        · simp
        · exfalso
          rw [beq_iff_eq] at hp hbc
          exact hq (by rw [← hp, hbc])
      rw [hfind]
      have haggeq : evalsFor (db.evaluations.filter
          (fun r => !(cleanInst r.institution == cleanInst inst))) i
          = evalsFor db.evaluations i := by
        unfold evalsFor
        rw [List.filter_filter]
        refine List.filter_congr ?_
        intro x hx
        cases hp : (cleanInst x.institution == cleanInst i)
        · simp
        · have hkp : (!(cleanInst x.institution == cleanInst inst)) = true := by
            cases hbc : (cleanInst x.institution == cleanInst inst)
            · simp
            · exfalso
              rw [beq_iff_eq] at hp hbc
              exact hq (by rw [← hp, hbc])
          rw [hkp]
          simp
      have hIH := (statsInvariant_iff_triple db i).mp (hstats i)
      rw [statsTriple_get] at hIH
      rw [hIH]
      unfold aggTriple sumSummary sumTag countEvals
      rw [haggeq]

/-- Every state reachable with canonical institution strings satisfies the
invariant. -/
theorem DBInv_reachable (db : DBState) (h : ReachableC db) : DBInv db := by
  induction h with
  | init => exact DBInv_empty
  | write db e _ hc ih => exact DBInv_submit db ih e hc
  | reset db i _ ih => exact DBInv_reset db ih i

/-- C1 amended. -/
theorem stats_match_evaluations_of_reachable (db : DBState) (h : ReachableC db) :
    ∀ i, statsInvariant db i :=
  (DBInv_reachable db h).2.2

/-- C1 counterexample: that state is reachable by two evaluation writes, yet
the stored stats disagree with the aggregates recomputed from the
institution's evaluation rows (stored count 1, actual rows 2; stored
cumulative 3, actual sum 8). -/
theorem stats_invariant_counterexample :
    Reachable dbWhitespace ∧ ¬ statsInvariant dbWhitespace "uab" := by
  refine ⟨Reachable.write _ _ (Reachable.write _ _ Reachable.init), ?_⟩
  intro h
  exact absurd h.2.2 (by decide)

/-- C1 witness. -/
theorem stats_match_evaluations_of_reachable_witness :
    statsInvariant dbWitness "uab" :=
  stats_match_evaluations_of_reachable dbWitness
    (ReachableC.write _ _ ReachableC.init (by decide)) "uab"

